import Mathlib

/-!
# Shallow embedding of the ats-backend scoring and calibration engine

This file embeds, in Lean 4, the parts of `app/services/scorer.py` and
`app/services/job_ranker.py` that the specification's claims are about, and
proves or refutes each claim.

Modelling conventions:

* Python strings are modelled as `List Char`; `str.lower()` is modelled by
  ASCII lowering (the repository's data tables and the claims' inputs are
  ASCII).
* Python `float` arithmetic is modelled exactly over `ℚ`.  The decimal
  literals appearing in the code (`0.70`, `0.25`, ...) are modelled by the
  rationals they denote.  All claims settled here are robust to this
  idealisation: the bound claims go through explicit `max`/`min` clamps and
  the concrete evaluations stay far from binary-representation boundaries.
* Python `int(x)` (truncation toward zero) is `pyInt`; Python `round(x, 1)`
  (round-half-to-even at one decimal) is `pyRound1`.
* Python `re` scanning (`findall`) is modelled by position-by-position
  matchers that follow the concrete patterns' alternation order and
  greediness; the comments at each matcher record why the deterministic
  choices coincide with backtracking regex semantics for these patterns.
-/

/-- `String` contents as a character list (Python `str` model). -/

def cl (s : String) : List Char := s.data

/-- ASCII lower-casing of one character (model of `str.lower`). -/

def pyLowerChar (c : Char) : Char := c.toLower

/-- Lower-case a whole character list. -/

def lowerL (l : List Char) : List Char := l.map pyLowerChar

/-- Python's `\s` class: space, tab, newline, carriage return, form feed,
vertical tab. -/

def isPySpace (c : Char) : Bool :=
  c = ' ' || c = '\t' || c = '\n' || c = '\x0d' || c = '\x0c' || c = '\x0b'

/-- `[a-z]` character class. -/

def isLowerAlpha (c : Char) : Bool := 'a' ≤ c && c ≤ 'z'

/-- `[a-z0-9]` character class. -/

def isWordChar (c : Char) : Bool := isLowerAlpha c || ('0' ≤ c && c ≤ '9')

/-- Python `str.strip()` on a character list. -/

def pyStrip (l : List Char) : List Char :=
  ((l.dropWhile isPySpace).reverse.dropWhile isPySpace).reverse

/-- Python `str.lower().strip()` applied to a `String`, as a `String`. -/

def pyLowerStrip (s : String) : String :=
  ((pyStrip (lowerL (cl s))).asString)

/-- Python `str.lower()` on a `String`. -/

def pyLowerS (s : String) : String := (lowerL (cl s)).asString

/-- Python `int(x)` on an exact rational: truncation toward zero. -/

def pyInt (q : ℚ) : ℤ := if 0 ≤ q then Rat.floor q else -(Rat.floor (-q))

/-- Round-half-to-even to the nearest integer (CPython's rounding of an
exactly representable value). -/

def halfEven (q : ℚ) : ℤ :=
  if q - Rat.floor q < mkRat 1 2 then Rat.floor q
  else if mkRat 1 2 < q - Rat.floor q then Rat.floor q + 1
  else if Even (Rat.floor q) then Rat.floor q else Rat.floor q + 1

/-- Python `round(x, 1)` on an exact rational. -/

def pyRound1 (q : ℚ) : ℚ := (halfEven (q * 10) : ℚ) / 10

/-!
## Text normalisation (`normalize_text`, scorer.py)

`normalize_text` lowercases, folds unicode dashes to `-` and bullet glyphs
to a space, collapses runs of spaces/tabs to one space and runs of two or
more newlines to one newline.
-/

/-- Fold the unicode dashes `–`, `—` to `-`. -/

def foldDash (c : Char) : Char :=
  if c = '–' || c = '—' then '-' else c

/-- Fold the bullet glyphs `• · ▸ ▪ ■` to a space. -/

def foldBullet (c : Char) : Char :=
  if c = '•' || c = '·' || c = '▸' || c = '▪' || c = '■'
  then ' ' else c

/-- Collapse every maximal run of characters satisfying `p` to the single
character `rep` (model of `re.sub(p + "+", rep, ·)`; the replacement is
emitted at the end of the run, which yields the same string). -/

def collapseRun (p : Char → Bool) (rep : Char) : List Char → List Char
  | [] => []
  | [c] => if p c then [rep] else [c]
  | c :: d :: rest =>
    if p c then
      (if p d then collapseRun p rep (d :: rest)
       else rep :: collapseRun p rep (d :: rest))
    else c :: collapseRun p rep (d :: rest)

/-- Is the character a space or a tab (`[ \t]`)? -/

def isSpaceTab (c : Char) : Bool := c = ' ' || c = '\t'

/-- Faithful model of `normalize_text` from scorer.py: lower-case, dashes,
bullets, collapse `[ \t]+` to one space, collapse `\n{2,}` to one `\n`
(collapsing every newline run to one newline is the same function, since a
run of length one is left as a single newline either way). -/

def normalize_text (t : List Char) : List Char :=
  collapseRun (fun c => c = '\n') '\n'
    (collapseRun isSpaceTab ' '
      (((t.map pyLowerChar).map foldDash).map foldBullet))

/-!
## Skill taxonomy data (scorer.py, module-level constants)

`SKILL_SYNONYMS` is transcribed verbatim (canonical name, alias list, in
source order).  The derived dict `_ALIAS_TO_CANONICAL` is built by iterating
the entries in order and overwriting, so a duplicated alias maps to the
*last* canonical that lists it; `aliasToCanonical` reproduces that by
searching the reversed list.
-/

def SKILL_SYNONYMS : List (String × List String) := [
  ("python", ["python", "py", "python3", "python 3", "python2", "cpython"]),
  ("javascript", ["javascript", "js", "java script", "ecmascript",
    "es6", "es6+", "es2015", "es2016", "es2017", "es2018",
    "es2019", "es2020", "es2021", "vanillajs", "vanilla js"]),
  ("typescript", ["typescript", "ts"]),
  ("java", ["java", "java 8", "java 11", "java 17", "java se",
    "java ee", "core java"]),
  ("c++", ["c++", "cpp", "c plus plus"]),
  ("c#", ["c#", "csharp", "c sharp", ".net", "dotnet"]),
  ("go", ["go", "golang"]),
  ("rust", ["rust"]),
  ("ruby", ["ruby"]),
  ("php", ["php"]),
  ("swift", ["swift"]),
  ("kotlin", ["kotlin"]),
  ("scala", ["scala"]),
  ("bash", ["bash", "shell", "shell script", "bash script", "sh",
    "unix shell", "scripting"]),
  ("sql", ["sql", "structured query language", "plsql", "pl/sql",
    "tsql", "t-sql", "hql", "ansi sql"]),
  ("r", ["r language", "r programming", "rstudio", "r studio"]),
  ("dart", ["dart"]),
  ("react", ["react", "reactjs", "react.js", "react js",
    "react native", "react hooks"]),
  ("angular", ["angular", "angularjs", "angular.js", "angular 2",
    "angular2", "angular 14", "angular 15", "angular 16"]),
  ("vue", ["vue", "vuejs", "vue.js", "vue js", "vue 3", "vue2", "vue3"]),
  ("nextjs", ["nextjs", "next.js", "next js", "next"]),
  ("html", ["html", "html5", "xhtml", "html/css"]),
  ("css", ["css", "css3", "scss", "sass", "less",
    "styled components", "css-in-js"]),
  ("tailwind", ["tailwind", "tailwindcss", "tailwind css"]),
  ("svelte", ["svelte"]),
  ("redux", ["redux", "redux toolkit", "zustand", "mobx", "recoil"]),
  ("django", ["django", "django rest framework", "drf", "django rf",
    "django orm", "django views", "django framework"]),
  ("flask", ["flask", "flask api", "flask rest"]),
  ("fastapi", ["fastapi", "fast api", "fast-api", "fastapi framework"]),
  ("spring", ["spring", "spring boot", "springboot",
    "spring framework", "spring mvc", "spring cloud", "spring data"]),
  ("express", ["express", "express.js", "expressjs", "express framework"]),
  ("rails", ["rails", "ruby on rails", "ror"]),
  ("asp.net", ["asp.net", "asp.net core", "aspnet", ".net core",
    "dotnet", "asp .net"]),
  ("laravel", ["laravel"]),
  ("node.js", ["node.js", "node", "nodejs", "node js"]),
  ("gin", ["gin", "gin framework", "gin-gonic"]),
  ("nestjs", ["nestjs", "nest.js", "nest js"]),
  ("postgresql", ["postgresql", "postgres", "postgre", "pg", "psql",
    "postgressql", "postgresdb", "postgresql database"]),
  ("mysql", ["mysql", "my sql", "mariadb", "maria db"]),
  ("mongodb", ["mongodb", "mongo", "mongo db", "mongoose"]),
  ("sqlite", ["sqlite", "sqlite3"]),
  ("redis", ["redis", "redis cache", "redis db"]),
  ("elasticsearch", ["elasticsearch", "elastic search", "elastic",
    "opensearch", "elk", "elk stack"]),
  ("cassandra", ["cassandra", "apache cassandra"]),
  ("dynamodb", ["dynamodb", "dynamo db", "amazon dynamodb"]),
  ("firebase", ["firebase", "firestore", "firebase realtime"]),
  ("oracle", ["oracle", "oracle db", "oracle database"]),
  ("mssql", ["mssql", "sql server", "microsoft sql server", "ms sql"]),
  ("neo4j", ["neo4j", "graph database"]),
  ("aws", ["aws", "amazon web services", "ec2", "s3", "lambda",
    "amazon aws", "aws cloud", "elastic beanstalk",
    "ecs", "eks", "cloudfront", "cloudwatch", "rds", "sqs", "sns"]),
  ("azure", ["azure", "microsoft azure", "ms azure",
    "azure devops", "azure functions", "azure blob"]),
  ("gcp", ["gcp", "google cloud", "google cloud platform",
    "google compute engine", "bigquery", "cloud run"]),
  ("docker", ["docker", "dockerfile", "docker-compose",
    "docker compose", "containerization", "containers", "docker swarm"]),
  ("kubernetes", ["kubernetes", "k8s", "kube", "kubectl",
    "helm", "openshift"]),
  ("jenkins", ["jenkins", "jenkins ci", "jenkins pipeline"]),
  ("terraform", ["terraform", "infrastructure as code", "iac"]),
  ("ansible", ["ansible", "ansible playbook"]),
  ("git", ["git", "version control", "git flow", "gitflow"]),
  ("github", ["github", "github actions", "github workflow"]),
  ("gitlab", ["gitlab", "gitlab ci", "gitlab cd", "gitlab pipeline"]),
  ("bitbucket", ["bitbucket", "bitbucket pipelines"]),
  ("linux", ["linux", "unix", "ubuntu", "centos", "debian",
    "rhel", "fedora", "linux administration", "linux server"]),
  ("nginx", ["nginx", "nginx server"]),
  ("kafka", ["kafka", "apache kafka", "event streaming", "event-driven"]),
  ("rabbitmq", ["rabbitmq", "rabbit mq", "amqp", "message broker", "mq"]),
  ("celery", ["celery", "celery task", "celery worker"]),
  ("tensorflow", ["tensorflow", "tf", "keras", "tensorflow keras"]),
  ("pytorch", ["pytorch", "torch", "pytorch lightning"]),
  ("scikit-learn", ["scikit-learn", "sklearn", "scikit learn"]),
  ("langchain", ["langchain", "lang chain", "langchain framework"]),
  ("openai", ["openai", "gpt", "chatgpt", "gpt-4", "gpt-3",
    "llm", "large language model"]),
  ("machine learning", ["machine learning", "ml", "supervised learning",
    "unsupervised learning", "deep learning", "dl",
    "neural network", "neural networks", "nlp",
    "computer vision", "cv", "artificial intelligence", "ai"]),
  ("pandas", ["pandas", "pd"]),
  ("numpy", ["numpy", "np"]),
  ("rest api", ["rest", "rest api", "restful", "restful api",
    "rest api development", "rest services", "http api",
    "backend api", "web api", "api development",
    "api design", "api integration", "api gateway"]),
  ("graphql", ["graphql", "graph ql", "apollo", "apollo graphql"]),
  ("microservices", ["microservices", "micro services",
    "microservice architecture", "distributed services",
    "soa", "service mesh", "service-oriented"]),
  ("ci/cd", ["ci/cd", "cicd", "ci cd", "continuous integration",
    "continuous delivery", "continuous deployment",
    "devops pipeline", "deployment pipeline",
    "github actions", "circleci", "travis ci"]),
  ("agile", ["agile", "scrum", "sprint", "kanban", "agile methodology"]),
  ("unit testing", ["unit testing", "unit test", "unit tests", "tdd",
    "test driven development", "test driven", "pytest",
    "junit", "jest", "mocha", "jasmine", "cypress",
    "integration testing", "test automation", "qa", "automated testing"]),
  ("system design", ["system design", "software architecture",
    "distributed systems", "hld", "lld",
    "low level design", "high level design",
    "scalable systems", "system architecture",
    "distributed system design"]),
  ("tableau", ["tableau", "tableau desktop"]),
  ("powerbi", ["power bi", "powerbi", "power bi desktop"]),
  ("jira", ["jira", "atlassian jira", "atlassian"]),
  ("figma", ["figma", "ui design", "ux design"]),
  ("websocket", ["websocket", "websockets", "socket.io", "real-time"])]

/-- `_ALIAS_TO_CANONICAL.get(a)`: the canonical name of the *last* synonym
entry whose alias list contains `a` (dict-overwrite semantics). -/

def aliasToCanonical (a : String) : Option String :=
  (SKILL_SYNONYMS.reverse.find? (fun p => p.2.contains a)).map (fun p => p.1)

/-- `normalize_skill` from scorer.py. -/

def normalize_skill (skill : String) : String :=
  match aliasToCanonical (pyLowerStrip skill) with
  | some c => c
  | none => pyLowerStrip skill

/-- `SKILL_SYNONYMS.get(canonical)`: dict lookup by key (keys are unique,
so the first entry with that name). -/

def synonymsOf (canonical : String) : Option (List String) :=
  (SKILL_SYNONYMS.find? (fun p => p.1 = canonical)).map (fun p => p.2)

/-- `get_all_aliases` from scorer.py. -/

def get_all_aliases (skill : String) : List String :=
  match synonymsOf (normalize_skill skill) with
  | some al => al
  | none => [pyLowerS skill, normalize_skill skill]

/-!
## Technology families, ecosystem chains, categories, role keywords
-/

def TECH_FAMILIES : List (String × List String) := [
  ("message_queue", ["kafka", "rabbitmq", "celery", "redis",
    "aws sqs", "azure service bus", "pubsub"]),
  ("version_control", ["git", "github", "gitlab", "bitbucket",
    "svn", "mercurial"]),
  ("rdbms", ["postgresql", "mysql", "mssql", "oracle",
    "mariadb", "sqlite", "aurora"]),
  ("nosql_doc", ["mongodb", "dynamodb", "couchdb", "firebase", "cosmosdb"]),
  ("cache_store", ["redis", "memcached", "elasticsearch"]),
  ("cloud_platform", ["aws", "azure", "gcp", "heroku",
    "digitalocean", "linode"]),
  ("container", ["docker", "podman", "lxc", "containerd"]),
  ("orchestration", ["kubernetes", "openshift", "docker swarm", "nomad"]),
  ("ci_cd_tool", ["jenkins", "github", "gitlab", "travis",
    "circleci", "teamcity", "bamboo"]),
  ("observability", ["prometheus", "grafana", "elk",
    "splunk", "datadog", "newrelic"]),
  ("frontend_fw", ["react", "angular", "vue", "svelte", "nextjs"]),
  ("backend_lang", ["python", "java", "go", "node.js",
    "ruby", "php", "c#"]),
  ("api_style", ["rest api", "graphql", "grpc", "websocket"]),
  ("infra_as_code", ["terraform", "ansible", "pulumi", "cloudformation"]),
  ("ml_framework", ["tensorflow", "pytorch", "scikit-learn",
    "keras", "xgboost"])]

/-- `_ALIAS_TO_CANONICAL.get(m.lower(), m.lower())` for a family member
(all members are written lower-case in the source). -/

def canonOfMember (m : String) : String :=
  match aliasToCanonical m with
  | some c => c
  | none => m

/-- The pairs written into `_SKILL_TO_FAMILY`, in construction order. -/

def skillFamilyPairs : List (String × String) :=
  TECH_FAMILIES.flatMap (fun p => p.2.map (fun m => (canonOfMember m, p.1)))

/-- Dict-overwrite lookup: the value of the *last* pair with this key. -/

def lookupLast (k : String) (l : List (String × String)) : Option String :=
  (l.reverse.find? (fun p => p.1 = k)).map (fun p => p.2)

/-- `get_family` from scorer.py (`''` when the skill has no family). -/

def get_family (skill : String) : String :=
  match lookupLast (normalize_skill skill) skillFamilyPairs with
  | some f => f
  | none => ""

def ECOSYSTEM_CHAINS : List (String × List String) := [
  ("django", ["python", "rest api"]),
  ("flask", ["python", "rest api"]),
  ("fastapi", ["python", "rest api"]),
  ("celery", ["python"]),
  ("pandas", ["python"]),
  ("numpy", ["python"]),
  ("scikit-learn", ["python", "machine learning"]),
  ("tensorflow", ["python", "machine learning"]),
  ("pytorch", ["python", "machine learning"]),
  ("langchain", ["python"]),
  ("spring", ["java", "rest api"]),
  ("express", ["node.js", "javascript", "rest api"]),
  ("nestjs", ["node.js", "typescript", "rest api"]),
  ("nextjs", ["react", "javascript"]),
  ("react", ["javascript"]),
  ("angular", ["typescript", "javascript"]),
  ("vue", ["javascript"]),
  ("rails", ["ruby", "rest api"]),
  ("asp.net", ["c#"]),
  ("laravel", ["php"]),
  ("kubernetes", ["docker"]),
  ("graphql", ["rest api"]),
  ("microservices", ["rest api", "system design"]),
  ("kafka", ["microservices"]),
  ("rabbitmq", ["microservices"])]

/-- `ALL_CANONICAL = PROG_LANGUAGES | FRAMEWORKS | DATABASES | TOOLS |
PRACTICES`.  The Python value is a `set`, used only for membership and
iteration; the list below enumerates the same elements (in the textual
order of the five set literals). -/

def ALL_CANONICAL : List String := [
  "python", "javascript", "typescript", "java", "c++", "c#", "go", "rust",
  "ruby", "php", "swift", "kotlin", "scala", "bash", "sql", "r", "dart",
  "react", "angular", "vue", "nextjs", "django", "flask", "fastapi",
  "spring", "express", "rails", "asp.net", "laravel", "node.js", "svelte",
  "redux", "tensorflow", "pytorch", "scikit-learn", "langchain", "openai",
  "pandas", "numpy", "celery", "websocket", "gin", "nestjs",
  "postgresql", "mysql", "mongodb", "sqlite", "redis", "elasticsearch",
  "cassandra", "dynamodb", "firebase", "oracle", "mssql", "neo4j",
  "aws", "azure", "gcp", "docker", "kubernetes", "jenkins", "terraform",
  "ansible", "git", "github", "gitlab", "bitbucket", "linux", "nginx",
  "kafka", "rabbitmq", "tableau", "powerbi", "jira", "figma", "graphql",
  "rest api", "microservices", "ci/cd", "agile", "unit testing",
  "system design", "machine learning"]

/-- `ROLE_KEYWORDS` from scorer.py, in dict insertion order (the order the
detection loop iterates). -/

def ROLE_KEYWORDS : List (String × List String) := [
  ("backend", ["api", "server", "database", "microservices", "rest",
    "backend", "server-side", "endpoint", "middleware"]),
  ("frontend", ["ui", "css", "html", "react", "angular", "vue",
    "frontend", "user interface", "ux", "responsive"]),
  ("fullstack", ["full stack", "full-stack", "fullstack",
    "end to end", "frontend", "backend", "api", "database"]),
  ("devops", ["docker", "kubernetes", "ci/cd", "aws", "linux",
    "terraform", "infrastructure", "deployment",
    "pipeline", "monitoring"]),
  ("data", ["python", "sql", "pandas", "analytics",
    "data pipeline", "etl", "spark", "bigquery"]),
  ("ml", ["machine learning", "deep learning", "nlp",
    "tensorflow", "pytorch", "model", "training",
    "inference", "transformer"])]

/-!
## Skill presence (`_make_pattern` / `skill_present_in_text`)

`_make_pattern(alias)` produces `(?<![a-z0-9])alias(?![a-z0-9])` when
`len(alias) <= 3` and `(?<![a-z])alias(?![a-z])` otherwise, and
`skill_present_in_text` runs `re.search` with it.  `re.search` of a literal
with lookarounds succeeds iff the text splits as `pre ++ alias ++ post`
with the guard satisfied on the last character of `pre` and the first of
`post`; `searchAlias` scans the positions explicitly.
-/

/-- The character class the lookarounds of `_make_pattern` exclude:
`[a-z0-9]` for aliases of length at most 3, `[a-z]` otherwise. -/

def aliasGuardChar (short : Bool) (c : Char) : Bool :=
  if short then isWordChar c else isLowerAlpha c

/-- A boundary is fine when there is no neighbouring character or the
neighbouring character is outside the guarded class. -/

def guardOk (short : Bool) : Option Char → Bool
  | none => true
  | some c => !(aliasGuardChar short c)

/-- `re.search` of `_make_pattern(al)` against `cs`. -/

def searchAlias (short : Bool) (al cs : List Char) : Bool :=
  (List.range (cs.length + 1)).any (fun i =>
    al.isPrefixOf (cs.drop i)
    && guardOk short (cs.take i).getLast?
    && guardOk short ((cs.drop i).drop al.length).head?)

/-- `skill_present_in_text` from scorer.py. -/

def skill_present_in_text (skill : String) (tn : List Char) : Bool :=
  (get_all_aliases skill).any (fun a =>
    searchAlias (decide ((cl a).length ≤ 3)) (cl a) tn)

/-- `family_member_present` from scorer.py. -/

def family_member_present (skill : String) (tn : List Char) : Bool :=
  let fam := get_family skill
  if fam = "" then false
  else
    match TECH_FAMILIES.lookup fam with
    | none => false
    | some members =>
      members.any (fun m =>
        if canonOfMember m = normalize_skill skill then false
        else skill_present_in_text (canonOfMember m) tn)

/-!
## Experience extraction (`extract_years_of_experience`, scorer.py)

The date-range pattern is

```
(?:(month)\.?\s*)? (20\d{2}|19\d{2}) \s*(?:-{1,2}|to|till)\s*
(?:(month)\.?\s*)? (20\d{2}|19\d{2}|present|current|now|ongoing|till\s*date|to\s*date)
```

scanned with `findall` (leftmost, non-overlapping).  The matchers below
enumerate the alternatives in the pattern's order; the only points where
regex backtracking can branch are the optional month groups and `-{1,2}`,
and those are kept as explicit candidate lists in preference order.  The
quantifiers `\.?` and `\s*` sit in front of tokens that can never start
with a dot/whitespace, so their greedy deterministic reading is exact.
-/

/-- Month-name alternatives of the pattern, in alternation order, each
family longest-first (the greedy `(?:...)?` suffixes), with the value
`MONTH_MAP` assigns (every capturable name is a `MONTH_MAP` key). -/

def monthAlts : List (String × ℕ) := [
  ("january", 1), ("jan", 1), ("february", 2), ("feb", 2),
  ("march", 3), ("mar", 3), ("april", 4), ("apr", 4), ("may", 5),
  ("june", 6), ("jun", 6), ("july", 7), ("jul", 7),
  ("august", 8), ("aug", 8),
  ("september", 9), ("sept", 9), ("sep", 9),
  ("october", 10), ("oct", 10), ("november", 11), ("nov", 11),
  ("december", 12), ("dec", 12)]

/-- `\s*`. -/

def skipSpaces (cs : List Char) : List Char := cs.dropWhile isPySpace

/-- `\.?\s*` (after a month name). -/

def dotSpaces (cs : List Char) : List Char :=
  match cs with
  | '.' :: r => skipSpaces r
  | _ => skipSpaces cs

/-- Candidates for one month alternative followed by `\.?\s*`. -/

def matchMonthCands (cs : List Char) : List (ℕ × List Char) :=
  monthAlts.filterMap (fun p =>
    if (cl p.1).isPrefixOf cs then some (p.2, dotSpaces (cs.drop (cl p.1).length))
    else none)

/-- Candidates of the optional month part `(?:(month)\.?\s*)?`: month
present (in alternation order) first, absent last. -/

def monthPartCands (cs : List Char) : List (Option ℕ × List Char) :=
  (matchMonthCands cs).map (fun q => (some q.1, q.2)) ++ [(none, cs)]

/-- `(20\d{2}|19\d{2})`: a four-digit year starting `20` or `19`, with its
numeric value. -/

def matchYearTok : List Char → Option (ℕ × List Char)
  | '2' :: '0' :: a :: b :: rest =>
    if a.isDigit && b.isDigit
    then some (2000 + 10 * (a.toNat - 48) + (b.toNat - 48), rest) else none
  | '1' :: '9' :: a :: b :: rest =>
    if a.isDigit && b.isDigit
    then some (1900 + 10 * (a.toNat - 48) + (b.toNat - 48), rest) else none
  | _ => none

/-- Candidates of `\s*(?:-{1,2}|to|till)\s*`: two dashes before one dash,
then the word alternatives (whose first two characters are mutually
exclusive).  For the two-dash case the one-dash fallback keeps the second
dash unconsumed (no trailing whitespace can follow a dash that is still
unread, so its trailing `\s*` consumes nothing). -/

def sepCands (cs : List Char) : List (List Char) :=
  let d := cs.dropWhile isPySpace
  if (cl "--").isPrefixOf d then [(d.drop 2).dropWhile isPySpace, d.drop 1]
  else if (cl "-").isPrefixOf d then [(d.drop 1).dropWhile isPySpace]
  else if (cl "to").isPrefixOf d then [(d.drop 2).dropWhile isPySpace]
  else if (cl "till").isPrefixOf d then [(d.drop 4).dropWhile isPySpace]
  else []

/-- The end token of a range: a year, or a "still running" marker
(`present|current|now|ongoing|till\s*date|to\s*date`, all mapped to the
current date by the code). -/

inductive EndTok where
  | year : ℕ → EndTok
  | presentTok : EndTok
deriving DecidableEq, Repr

/-- The `\s*date` tail of the `till\s*date` / `to\s*date` alternatives,
`k` characters past the head word. -/

def dateAfter (k : ℕ) (cs : List Char) : Option (EndTok × List Char) :=
  let r := (cs.drop k).dropWhile isPySpace
  if (cl "date").isPrefixOf r then some (.presentTok, r.drop 4) else none

/-- The final group of the pattern, alternatives in pattern order (year
digits first, then the keywords; all alternatives have mutually exclusive
prefixes, so at most one applies). -/

def matchEndTok (cs : List Char) : Option (EndTok × List Char) :=
  match matchYearTok cs with
  | some (y, r) => some (.year y, r)
  | none =>
    if (cl "present").isPrefixOf cs then some (.presentTok, cs.drop 7)
    else if (cl "current").isPrefixOf cs then some (.presentTok, cs.drop 7)
    else if (cl "now").isPrefixOf cs then some (.presentTok, cs.drop 3)
    else if (cl "ongoing").isPrefixOf cs then some (.presentTok, cs.drop 7)
    else if (cl "till").isPrefixOf cs then dateAfter 4 cs
    else if (cl "to").isPrefixOf cs then dateAfter 2 cs
    else none

/-- Candidates of the end part (optional month, then the final group). -/

def endCands (cs : List Char) : List (Option ℕ × EndTok × List Char) :=
  ((matchMonthCands cs).filterMap (fun q =>
    match matchEndTok q.2 with
    | some (tok, r) => some (some q.1, tok, r)
    | none => none))
  ++ (match matchEndTok cs with
      | some (tok, r) => [(none, tok, r)]
      | none => [])

/-- One raw `findall` tuple: start month group, start year, end month
group, end token. -/

structure RawMatch where
  smon : Option ℕ
  syear : ℕ
  emon : Option ℕ
  etok : EndTok
deriving DecidableEq, Repr

/-- Attempt a match of the whole date-range pattern anchored at the head of
`cs` (the regex explores the candidate lists in exactly this order). -/

def matchAt (cs : List Char) : Option (RawMatch × List Char) :=
  (monthPartCands cs).findSome? (fun mp =>
    match matchYearTok mp.2 with
    | none => none
    | some (y, cs2) =>
      (sepCands cs2).findSome? (fun cs3 =>
        (endCands cs3).findSome? (fun ec =>
          some (⟨mp.1, y, ec.1, ec.2.1⟩, ec.2.2))))

/-- `findall`: scan positions left to right, resuming after each match.
`fuel` is an upper bound on the number of steps; every step strictly
shortens the text (a successful match consumes at least the four year
digits — see `matchAt_rest_length`), so `fuel = cs.length` never runs out. -/

def dateScan : ℕ → List Char → List RawMatch
  | 0, _ => []
  | _ + 1, [] => []
  | fuel + 1, c :: rest =>
    match matchAt (c :: rest) with
    | some (m, r) => m :: dateScan fuel r
    | none => dateScan fuel rest

/-- Validation of one raw match (the loop body of
`extract_years_of_experience`): month defaults to June (`MONTH_MAP.get`
default 6), still-running markers map to the current date, the start year
must lie in `[1970, now]`, the end year in `[start, now+1]`, and the
half-open month interval must have positive length. -/

def toPeriod (nowY nowM : ℕ) (m : RawMatch) : Option (ℕ × ℕ) :=
  let smo := m.smon.getD 6
  let e := match m.etok with
    | .presentTok => (nowY, nowM)
    | .year y => (y, m.emon.getD 6)
  if 1970 ≤ m.syear ∧ m.syear ≤ nowY then
    if m.syear ≤ e.1 ∧ e.1 ≤ nowY + 1 then
      if m.syear * 12 + smo < e.1 * 12 + e.2 then
        some (m.syear * 12 + smo, e.1 * 12 + e.2)
      else none
    else none
  else none

/-- The validated periods found in a text (already normalised text). -/

def periodsOf (nowY nowM : ℕ) (tn : List Char) : List (ℕ × ℕ) :=
  (dateScan tn.length tn).filterMap (toPeriod nowY nowM)

/-!
### Fallback: explicit experience statements

`(\d+(?:\.\d+)?)\s*\+?\s*years?\s+(?:of\s+)?
(?:relevant\s+|professional\s+|industry\s+|work\s+|total\s+)?experience`
-/

/-- Numeric value of a digit run. -/

def digitsVal (l : List Char) : ℕ := l.foldl (fun a c => a * 10 + (c.toNat - 48)) 0

/-- `(\d+(?:\.\d+)?)` with its value as an exact rational. -/

def matchNumber (cs : List Char) : Option (ℚ × List Char) :=
  if (cs.takeWhile Char.isDigit).isEmpty then none
  else
    match cs.drop (cs.takeWhile Char.isDigit).length with
    | '.' :: r2 =>
      if (r2.takeWhile Char.isDigit).isEmpty then
        some ((digitsVal (cs.takeWhile Char.isDigit) : ℚ),
          cs.drop (cs.takeWhile Char.isDigit).length)
      else
        some ((digitsVal (cs.takeWhile Char.isDigit) : ℚ)
            + mkRat (digitsVal (r2.takeWhile Char.isDigit))
                (10 ^ (r2.takeWhile Char.isDigit).length),
          r2.drop (r2.takeWhile Char.isDigit).length)
    | _ => some ((digitsVal (cs.takeWhile Char.isDigit) : ℚ),
        cs.drop (cs.takeWhile Char.isDigit).length)

/-- `word\s+` (the word followed by at least one whitespace). -/

def wordSpacePlus (w : String) (cs : List Char) : Option (List Char) :=
  if (cl w).isPrefixOf cs then
    match cs.drop (cl w).length with
    | c :: r => if isPySpace c then some (r.dropWhile isPySpace) else none
    | [] => none
  else none

/-- `(?:of\s+)?` — greedily consumed when it matches; skipping it can never
rescue a match, since what follows must start with an adjective or with
`experience`, neither of which begins with `of`. -/

def ofGroup (cs : List Char) : List Char :=
  match wordSpacePlus "of" cs with
  | some r => r
  | none => cs

/-- `(?:relevant\s+|professional\s+|industry\s+|work\s+|total\s+)?` —
alternatives have distinct first letters; greedy consumption is exact
because `experience` does not begin with any of them. -/

def adjGroup (cs : List Char) : List Char :=
  match (["relevant", "professional", "industry", "work",
          "total"].findSome? (fun w => wordSpacePlus w cs)) with
  | some r => r
  | none => cs

/-- `\+?`. -/

def plusOpt (cs : List Char) : List Char :=
  match cs with
  | '+' :: r => r
  | _ => cs

/-- The optional `s` of `years?`. -/

def sOpt (cs : List Char) : List Char :=
  match cs with
  | 's' :: r => r
  | _ => cs

/-- `\s+`: at least one whitespace, consumed greedily. -/

def spacePlus (cs : List Char) : Option (List Char) :=
  match cs with
  | c :: r => if isPySpace c then some (r.dropWhile isPySpace) else none
  | [] => none

/-- Attempt a match of the explicit-statement pattern at the head of `cs`.
`years?` takes the `s` greedily; if an `s` is present but no whitespace
follows, the `s`-less reading fails as well (`\s+` cannot match `s`), so
the deterministic choice is exact. -/

def matchExpAt (cs : List Char) : Option (ℚ × List Char) :=
  match matchNumber cs with
  | none => none
  | some (v, cs1) =>
    if (cl "year").isPrefixOf ((plusOpt (cs1.dropWhile isPySpace)).dropWhile isPySpace) then
      match spacePlus (sOpt
          (((plusOpt (cs1.dropWhile isPySpace)).dropWhile isPySpace).drop 4)) with
      | some r7 =>
        if (cl "experience").isPrefixOf (adjGroup (ofGroup r7)) then
          some (v, (adjGroup (ofGroup r7)).drop 10)
        else none
      | none => none
    else none

/-- `findall` for the explicit-statement pattern. -/

def expScan : ℕ → List Char → List ℚ
  | 0, _ => []
  | _ + 1, [] => []
  | fuel + 1, c :: rest =>
    match matchExpAt (c :: rest) with
    | some (v, r) => v :: expScan fuel r
    | none => expScan fuel rest

/-- The explicit-statement values found in a (normalised) text. -/

def expValsOf (tn : List Char) : List ℚ := expScan tn.length tn

/-- Python `max`/`min` on two exact rationals. -/

def qmax (a b : ℚ) : ℚ := if a ≤ b then b else a

def qmin (a b : ℚ) : ℚ := if a ≤ b then a else b

/-- `MAX_EXP_YEARS`. -/

def MAX_EXP_YEARS : ℚ := 45

/-- `extract_years_of_experience` from scorer.py, parameterised by the
runtime constants `CURRENT_YEAR`/`CURRENT_MONTH`. -/

def extract_years_of_experience (nowY nowM : ℕ) (text : List Char) : ℚ :=
  let tn := normalize_text text
  match periodsOf nowY nowM tn with
  | p :: ps =>
    let earliest := ps.foldl (fun a q => Nat.min a q.1) p.1
    let latest := ps.foldl (fun a q => Nat.max a q.2) p.2
    let years := pyRound1 (((latest : ℚ) - (earliest : ℚ)) / 12)
    qmin (qmax years 0) MAX_EXP_YEARS
  | [] =>
    match expValsOf tn with
    | v :: vs =>
      let m := vs.foldl qmax v
      if 0 < m ∧ m ≤ MAX_EXP_YEARS then pyRound1 m else 0
    | [] => 0

/-!
## Role detection (`detect_role_type`, scorer.py)

The code lower-cases `title + ' ' + ' '.join(keywords) + ' ' + ' '.join(skills)`
and returns the *first* role (dict order) any of whose signal keywords
occurs as a substring, defaulting to `"backend"`.
-/

/-- `' '.join(xs)` on character lists. -/

def joinSpace : List (List Char) → List Char
  | [] => []
  | [x] => x
  | x :: y :: rest => x ++ ' ' :: joinSpace (y :: rest)

/-- The combined lower-cased text the role detector scans. -/

def roleText (title : List Char) (keywords skills : List (List Char)) : List Char :=
  lowerL (title ++ ' ' :: (joinSpace keywords ++ ' ' :: joinSpace skills))

/-- Python's substring test `pat in cs`. -/

def isSubL (pat cs : List Char) : Bool :=
  (List.range (cs.length + 1)).any (fun i => pat.isPrefixOf (cs.drop i))

/-- `detect_role_type` from scorer.py. -/

def detect_role_type (title : List Char) (keywords skills : List (List Char)) : String :=
  let text := roleText title keywords skills
  match ROLE_KEYWORDS.find? (fun p => p.2.any (fun s => isSubL (cl s) text)) with
  | some p => p.1
  | none => "backend"

/-- Number of signal keywords of one role that occur in the text (what the
spec's "counting hits" description asks for). -/

def roleHits (signals : List String) (text : List Char) : ℕ :=
  (signals.filter (fun s => isSubL (cl s) text)).length

/-!
## Aggregation (`score_resume`, Phase 11)

`base_score = int(0.30*skill + 0.30*exp + 0.25*proj + 0.10*role + 0.05*edu)`
clamped to `[0, 100]`.  The components are the integer component scores.
-/

/-- The Phase 11 weighted aggregation from `score_resume`. -/

def scoreResumeBase (skill exp proj role edu : ℤ) : ℤ :=
  max 0 (min 100 (pyInt
    ((3 : ℚ)/10 * skill + (3 : ℚ)/10 * exp + (1 : ℚ)/4 * proj
      + (1 : ℚ)/10 * role + (1 : ℚ)/20 * edu)))

/-- The spec's wording of the same aggregation, with `round` in place of
truncation (used to refute claim C4 as stated). -/

def specBaseRound (skill exp proj role edu : ℤ) : ℤ :=
  max 0 (min 100 (halfEven
    ((3 : ℚ)/10 * skill + (3 : ℚ)/10 * exp + (1 : ℚ)/4 * proj
      + (1 : ℚ)/10 * role + (1 : ℚ)/20 * edu)))

/-!
## Skill matching (`match_skills`, scorer.py)
-/

/-- The canonical skills detected in the normalised text (the Python value
is a set; only membership matters downstream, plus the bonus list which no
claim depends on). -/

def detectedCanonicals (tn : List Char) : List String :=
  ALL_CANONICAL.filter (fun c => skill_present_in_text c tn)

/-- `_get_inferred_skills`: canonical skills implied by the detected ones
(again a Python set; membership only). -/

def inferredSkills (det : List String) : List String :=
  det.flatMap (fun s =>
    (match ECOSYSTEM_CHAINS.lookup s with
     | some l => l
     | none => []).map normalize_skill)

/-- One step of the `match_skills` requirement loop: which branch the
required skill takes.  Returns the matched-list entry (with its suffix) or
`none` for a missing skill, together with the `match_types` entry. -/

def classifyRequired (tn : List Char) (det imp : List String) (skill : String) :
    Option (String × String) :=
  if skill_present_in_text skill tn then some (skill, "direct")
  else if normalize_skill skill ∈ imp ∨ normalize_skill skill ∈ det then
    some (skill ++ " (inferred)", "inferred")
  else if family_member_present skill tn then
    some (skill ++ " (equivalent)", "family")
  else none

/-- One requirement appended onto the accumulated
(matched, missing, match_types) triple. -/

def msStep (tn : List Char) (det imp : List String) (skill : String)
    (acc : List String × List String × List (String × String)) :
    List String × List String × List (String × String) :=
  match classifyRequired tn det imp skill with
  | some (entry, ty) => (entry :: acc.1, acc.2.1, (pyLowerS skill, ty) :: acc.2.2)
  | none => (acc.1, skill :: acc.2.1, acc.2.2)

/-- The requirement loop of `match_skills`. -/

def msFold (tn : List Char) (det imp : List String) (required : List String) :
    List String × List String × List (String × String) :=
  required.foldr (msStep tn det imp) ([], [], [])

/-- `match_skills` (matched list, missing list, `match_types` pairs), built
by the same left-to-right pass over `required_skills`. -/

def match_skills (resume_text : List Char) (required : List String) :
    List String × List String × List (String × String) :=
  let tn := normalize_text resume_text
  msFold tn (detectedCanonicals tn) (inferredSkills (detectedCanonicals tn)) required

/-!
## Skill-coverage scoring (`compute_skill_match_score`, scorer.py)
-/

/-- `TIER_WEIGHT.get(tier, 2)`. -/

def tierWeight (tier : String) : ℚ :=
  if tier = "critical" then 3 else if tier = "important" then 2
  else if tier = "optional" then 1 else 2

/-- `MATCH_CREDIT.get(mtype, 1.0)`. -/

def matchCredit (mtype : String) : ℚ :=
  if mtype = "direct" then 1 else if mtype = "inferred" then mkRat 3 4
  else if mtype = "family" then mkRat 1 2 else 1

/-- `skill.lower().split(" (")[0]`: everything before the first
occurrence of `" ("` (the whole string when there is none). -/

def splitParen : List Char → List Char
  | [] => []
  | c :: rest =>
    if (cl " (").isPrefixOf (c :: rest) then []
    else c :: splitParen rest

/-- The key `compute_skill_match_score` uses for a matched entry. -/

def skillKey (entry : String) : String :=
  (splitParen (lowerL (cl entry))).asString

/-- `skill_importance.get(key, "important")` over an association list. -/

def lookupTier (imp : List (String × String)) (key : String) : String :=
  match imp.lookup key with
  | some t => t
  | none => "important"

/-- `match_types.get(key, "direct")` over an association list. -/

def lookupType (types : List (String × String)) (key : String) : String :=
  match types.lookup key with
  | some t => t
  | none => "direct"

/-- The (total weight, earned weight) accumulated over the matched list by
`compute_skill_match_score`. -/

def matchedWeights (matched : List String) (types imp : List (String × String)) :
    ℚ × ℚ :=
  matched.foldl (fun acc entry =>
    let w := tierWeight (lookupTier imp (skillKey entry))
    (acc.1 + w, acc.2 + w * matchCredit (lookupType types (skillKey entry))))
    (0, 0)

/-- The (total weight, critical missing, important missing) accumulated
over the missing list. -/

def missingWeights (missing : List String) (imp : List (String × String)) :
    ℚ × List String × List String :=
  missing.foldl (fun acc skill =>
    let tier := lookupTier imp (pyLowerS skill)
    (acc.1 + tierWeight tier,
     (if tier = "critical" then acc.2.1 ++ [skill] else acc.2.1),
     (if tier = "important" then acc.2.2 ++ [skill] else acc.2.2)))
    (0, [], [])

/-- The Phase 10 coverage curve applied to `raw_coverage`. -/

def coverageCurve (rc : ℚ) : ℤ :=
  if 1 ≤ rc then 100
  else if mkRat 9 10 ≤ rc then pyInt (90 + (rc - mkRat 9 10) / (mkRat 1 10) * 10)
  else if mkRat 3 4 ≤ rc then pyInt (78 + (rc - mkRat 3 4) / (mkRat 15 100) * 12)
  else if mkRat 6 10 ≤ rc then pyInt (63 + (rc - mkRat 6 10) / (mkRat 15 100) * 15)
  else if mkRat 4 10 ≤ rc then pyInt (43 + (rc - mkRat 4 10) / (mkRat 2 10) * 20)
  else pyInt (rc * 110)

/-- `compute_skill_match_score`: the score together with the critical
missing list (the part of the breakdown the adjustment phase consumes). -/

def compute_skill_match_score (matched missing : List String)
    (types imp : List (String × String)) : ℤ × List String :=
  let mw := matchedWeights matched types imp
  let ms := missingWeights missing imp
  let total := mw.1 + ms.1
  if total = 0 then (65, [])
  else (coverageCurve (mw.2 / total), ms.2.1)

/-!
## Pool calibration (`job_ranker.py`)

`CandidateResult` models the result dicts built by `rank_resumes_for_job`:
identity, `score`, `raw_score`, the two breakdown fields the calibrator
reads (`skill_match`, `experience_years`), the insights fields it touches,
and the keys it adds (`comparative_rank`, `role_fit`, `rank_position`,
absent before the call, hence `Option`).  Python floats are again exact
rationals and the dict fields are structure fields.
-/

structure Insights where
  recommendation : String
  comparative_rank : Option String
  comparative_recommendation : Option String
  role_fit : Option String
  pool_size : Option ℕ
deriving DecidableEq, Repr

structure CandidateResult where
  resume_id : ℕ
  filename : String
  score : ℤ
  raw_score : ℤ
  skill_match : ℤ
  experience_years : ℚ
  insights : Option Insights
  comparative_rank : Option String
  role_fit : Option String
  rank_position : Option ℕ
deriving DecidableEq, Repr

/-- `_determine_role_fit` from job_ranker.py. -/

def determineRoleFit (score skill : ℤ) : String :=
  if 80 ≤ score ∧ 70 ≤ skill then "core_fit"
  else if 65 ≤ score ∨ 50 ≤ skill then "adjacent_fit"
  else if 50 ≤ score then "weak_fit"
  else "irrelevant"

/-- `_comparative_label` from job_ranker.py. -/

def comparativeLabel (rankIdx poolSize : ℕ) : String :=
  let pct : ℚ := 1 - (rankIdx : ℚ) / ((max (poolSize - 1) 1 : ℕ) : ℚ)
  if mkRat 85 100 ≤ pct then "Top Candidate"
  else if mkRat 60 100 ≤ pct then "Strong Candidate"
  else if mkRat 35 100 ≤ pct then "Moderate Candidate"
  else if mkRat 15 100 ≤ pct then "Below Average"
  else "Weak Candidate"

/-- `_comparative_recommendation` from job_ranker.py (`raw_rec or default`
maps the empty string to the default). -/

def comparativeRecommendation (label rawRec : String) : String :=
  if label = "Top Candidate" then "Strong Hire — Prioritise Interview"
  else if label = "Strong Candidate" then "Hire — Schedule Interview"
  else if label = "Moderate Candidate" then
    (if rawRec = "" then "Consider — Further Screening Needed" else rawRec)
  else if label = "Below Average" then "Low Priority — Only if Pool is Thin"
  else "Not Recommended"

/-- Step 1: `r["raw_score"] = r["score"]` for every entry. -/

def snapshotRaw (r : CandidateResult) : CandidateResult :=
  { r with raw_score := r.score }

/-- The per-entry linear rescale + blend + clamp producing
`calibrated_scores` (floats modelled exactly). -/

def calibratedScore (poolMin poolRange targetTop targetBot : ℤ)
    (raw : ℤ) : ℤ :=
  let scaled : ℚ := (targetBot : ℚ)
    + ((raw - poolMin : ℤ) : ℚ) / ((poolRange : ℤ) : ℚ)
      * ((targetTop - targetBot : ℤ) : ℚ)
  let blended := pyInt (scaled * ((7 : ℚ)/10) + (raw : ℚ) * ((3 : ℚ)/10))
  max 20 (min 95 blended)

/-- The band compression of one calibrated score at pool index `idx`. -/

def compressedScore (n idx : ℕ) (score : ℤ) : ℤ :=
  let pct : ℚ := 1 - (idx : ℚ) / ((max (n - 1) 1 : ℕ) : ℚ)
  let bandTarget : ℤ :=
    if mkRat 85 100 ≤ pct then 82 + pyInt (pct * 13)
    else if mkRat 65 100 ≤ pct then 70 + pyInt (pct * 18)
    else if mkRat 40 100 ≤ pct then 58 + pyInt (pct * 29)
    else if mkRat 20 100 ≤ pct then 45 + pyInt (pct * 32)
    else 30 + pyInt (pct * 50)
  max 20 (min 95 (pyInt ((score : ℚ) * ((3 : ℚ)/4) + (bandTarget : ℚ) * ((1 : ℚ)/4))))

/-- Write the compressed scores back onto the entries (`zip`). -/

def setScores : List CandidateResult → List ℤ → List CandidateResult
  | r :: rs, s :: ss => { r with score := s } :: setScores rs ss
  | _, _ => []

/-- The single forward consistency pass (step 5): when the next entry beats
the current one on both `skill_match` and `experience_years` but got the
lower score, the two *scores* are swapped (the loop's mutation of
`results[i]`/`results[i+1]` carries the swapped score of `results[i+1]`
into the next comparison, which the recursion reproduces). -/

def swapGo (a : CandidateResult) : List CandidateResult → List CandidateResult
  | [] => [a]
  | b :: rest =>
    if a.skill_match < b.skill_match ∧ a.experience_years < b.experience_years
        ∧ b.score < a.score then
      { a with score := b.score } :: swapGo { b with score := a.score } rest
    else a :: swapGo b rest

def swapPass : List CandidateResult → List CandidateResult
  | [] => []
  | a :: rest => swapGo a rest

/-- Stable insertion (descending by `score`): the new element goes in front
of the first strictly smaller score, after all equal ones. -/

def insertDesc (r : CandidateResult) : List CandidateResult → List CandidateResult
  | [] => [r]
  | x :: xs => if x.score < r.score then r :: x :: xs else x :: insertDesc r xs

/-- `results.sort(key=score, reverse=True)`: Python's sort is stable, and a
stable descending sort is uniquely determined by the key, so stable
insertion sort reproduces it. -/

def sortByScoreDesc (l : List CandidateResult) : List CandidateResult :=
  l.foldr insertDesc []

/-- Step 7 for one entry at final rank `idx` (labels, role fit, rank
position, and the insights update when insights are present). -/

def relabelOne (n : ℕ) (idx : ℕ) (r : CandidateResult) : CandidateResult :=
  let compLabel := comparativeLabel idx n
  let roleFit := determineRoleFit r.score r.skill_match
  let rawRec := match r.insights with
    | some i => i.recommendation
    | none => ""
  let compRec := comparativeRecommendation compLabel rawRec
  { r with
    comparative_rank := some compLabel
    role_fit := some roleFit
    rank_position := some (idx + 1)
    insights := r.insights.map (fun i =>
      { i with
        comparative_rank := some compLabel
        comparative_recommendation := some compRec
        role_fit := some roleFit
        pool_size := some n
        recommendation := compRec }) }

/-- Step 7 over the whole (re-sorted) pool. -/

def relabelPool (n : ℕ) (l : List CandidateResult) : List CandidateResult :=
  l.enum.map (fun p => relabelOne n p.1 p.2)

/-- Python `max(list)` / `min(list)` over the non-empty raw-score list. -/

def listMaxZ : ℤ → List ℤ → ℤ
  | a, [] => a
  | a, x :: xs => listMaxZ (max a x) xs

def listMinZ : ℤ → List ℤ → ℤ
  | a, [] => a
  | a, x :: xs => listMinZ (min a x) xs

/-- The multi-candidate path of `calibrate_scores` (pool size at least 2),
applied to the already raw-snapshotted list. -/

def calibrateMulti (rs : List CandidateResult) : List CandidateResult :=
  let n := rs.length
  let raws := rs.map (fun r => r.raw_score)
  let poolMax := match raws with
    | [] => 0
    | x :: xs => listMaxZ x xs
  let poolMin := match raws with
    | [] => 0
    | x :: xs => listMinZ x xs
  let poolRange := max (poolMax - poolMin) 1
  let targetTop := max 90 (min 95 (poolMax + 8))
  let targetBot := max 25 (poolMin - 2)
  let calibrated := rs.map (fun r =>
    calibratedScore poolMin poolRange targetTop targetBot r.raw_score)
  let compressed := calibrated.enum.map (fun p => compressedScore n p.1 p.2)
  relabelPool n (sortByScoreDesc (swapPass (setScores rs compressed)))

/-- `calibrate_scores` from job_ranker.py. -/

def calibrate_scores (results : List CandidateResult) : List CandidateResult :=
  match results with
  | [] => []
  | [r0] =>
    let r := snapshotRaw r0
    [{ r with
        comparative_rank := some "Only Candidate"
        role_fit := some (determineRoleFit r.score r.skill_match) }]
  | _ => calibrateMulti (results.map snapshotRaw)

/-!
## Occurrence characterisations

`searchAlias`/`isSubL` scan positions; the lemmas below characterise them
as splittings `cs = pre ++ pat ++ post`, which is the notion the spec's
"occurs as a whole-token match" language is about.
-/

/-- The alias occurs with the code's lookaround guards: the text splits
around the alias and the neighbouring characters (when they exist) avoid
the guarded class. -/

def OccursWithGuards (short : Bool) (al cs : List Char) : Prop :=
  ∃ pre post, cs = pre ++ al ++ post
    ∧ guardOk short pre.getLast? = true
    ∧ guardOk short post.head? = true

/-!
## Claim C5 — role detection

The code does *not* count hits: it walks `ROLE_KEYWORDS` in dict order and
returns the first role with *any* substring hit.  On a devops-flavoured
title whose only backend hit is the generic word `api`, the max-hit rule
would give `devops` (3 hits, unique maximum) but the code returns
`backend` (first role, 1 hit).
-/

/-- First role whose hit count is positive, default `"backend"` — the
amended description of what the code computes. -/

def detectRoleFirstHit (title : List Char) (keywords skills : List (List Char)) :
    String :=
  match ROLE_KEYWORDS.find? (fun p =>
    0 < roleHits p.2 (roleText title keywords skills)) with
  | some p => p.1
  | none => "backend"

/-!
## Claim C2 — calibration bounds and the single-candidate pool

The two halves of the claim contradict each other on a single-candidate
pool whose score lies outside `[20, 95]`: the single-candidate branch
returns the score unchanged, so a lone candidate with score 100 yields an
output (and top) score of 100.  The `[20, 95]` bound does hold for every
pool with at least two candidates, where all scores pass the clamps.
-/

def c2solo : CandidateResult :=
  ⟨1, "solo.pdf", 100, 100, 80, 6, none, none, none, none⟩

def c2lo : CandidateResult :=
  ⟨2, "lo.pdf", 40, 40, 30, 1, none, none, none, none⟩

/-!
## Claim C9 — what the calibrator rewrites

Step 1 of `calibrate_scores` executes `r["raw_score"] = r["score"]` on
*every* entry, so `raw_score` after the call equals the entry's `score` at
call time — it is preserved only when the two already agree (as the
ranking pipeline arranges), not in general.  Besides `score` the function
also writes `raw_score`, the comparative labels and the insights
recommendation.  What *is* invariant is the frame below: identity and the
breakdown fields travel through the whole pipeline unchanged (as a
permutation, because of the final re-sort), with `raw_score` on output
carrying the input `score`.
-/

/-- The fields of an output entry that claim C9 is about. -/

def frameOut (r : CandidateResult) : ℕ × String × ℤ × ℚ × ℤ :=
  (r.resume_id, r.filename, r.skill_match, r.experience_years, r.raw_score)

/-- The same fields on an input entry, with `score` in the slot that
`raw_score` receives. -/

def frameIn (r : CandidateResult) : ℕ × String × ℤ × ℚ × ℤ :=
  (r.resume_id, r.filename, r.skill_match, r.experience_years, r.score)

def c9pre : CandidateResult :=
  ⟨7, "r.pdf", 50, 40, 60, 3, none, none, none, none⟩

/-!
## Claim C1 — bare years are never durations

Strategy: a successful match of the date-range pattern needs a start year
(four digits) and an end group, which is either another four-digit year
located strictly inside the remainder after the start year's digits — so
the text carries at least eight digit characters — or one of the
"still running" keywords (`present`, `current`, `now`, `ongoing`, or the
`... date` forms, which contain `date`).  A text whose only date-like
content is one bare 4-digit year has fewer than eight digits and none of
those keywords, so no period is extracted; and with no `experience`
statement the fallback is empty too, so the function returns 0.0.
-/

def digitCount (l : List Char) : ℕ := (l.filter Char.isDigit).length

/-- The keyword material an end group can consume. -/

def dateEndMarkers : List (List Char) :=
  [cl "present", cl "current", cl "now", cl "ongoing", cl "date"]

/-- Some end-group keyword occurs in the text. -/

def KeywordHit (cs : List Char) : Prop :=
  ∃ kw ∈ dateEndMarkers, isSubL kw cs = true

/-!
# Theorems

All definitions above are the embedding; everything below proves or
refutes the claims about them.
-/

/-- `Rat.floor` agrees with Mathlib's floor. -/

theorem ratFloor_eq_floor (q : ℚ) : Rat.floor q = ⌊q⌋ := by
  rw [Rat.floor_def, Rat.floor_def']

/-- On non-negative rationals Python truncation is the floor. -/

theorem pyInt_eq_floor (q : ℚ) (h : 0 ≤ q) : pyInt q = ⌊q⌋ := by
  rw [pyInt, if_pos h, ratFloor_eq_floor]

theorem searchAlias_iff (short : Bool) (al cs : List Char) :
    searchAlias short al cs = true ↔ OccursWithGuards short al cs := by
  constructor
  · intro h
    rw [searchAlias, List.any_eq_true] at h
    obtain ⟨i, _, hcond⟩ := h
    rw [Bool.and_eq_true, Bool.and_eq_true] at hcond
    obtain ⟨⟨hpre, hg1⟩, hg2⟩ := hcond
    rw [List.isPrefixOf_iff_prefix] at hpre
    obtain ⟨t, ht⟩ := hpre
    refine ⟨cs.take i, t, ?_, hg1, ?_⟩
    · conv_lhs => rw [← List.take_append_drop i cs, ← ht]
      rw [List.append_assoc]
    · have hteq : (cs.drop i).drop al.length = t := by
        rw [← ht, List.drop_left]
      rwa [hteq] at hg2
  · rintro ⟨pre, post, rfl, hg1, hg2⟩
    rw [searchAlias, List.any_eq_true]
    refine ⟨pre.length, ?_, ?_⟩
    · rw [List.mem_range]
      simp only [List.length_append]
      omega
    · rw [Bool.and_eq_true, Bool.and_eq_true]
      refine ⟨⟨?_, ?_⟩, ?_⟩
      · rw [List.isPrefixOf_iff_prefix, List.append_assoc, List.drop_left]
        exact ⟨post, rfl⟩
      · rwa [List.append_assoc, List.take_left]
      · rwa [List.append_assoc, List.drop_left, List.drop_left]

theorem isSubL_iff (pat cs : List Char) :
    isSubL pat cs = true ↔ ∃ pre post, cs = pre ++ pat ++ post := by
  constructor
  · intro h
    rw [isSubL, List.any_eq_true] at h
    obtain ⟨i, _, hpre⟩ := h
    rw [List.isPrefixOf_iff_prefix] at hpre
    obtain ⟨t, ht⟩ := hpre
    refine ⟨cs.take i, t, ?_⟩
    conv_lhs => rw [← List.take_append_drop i cs, ← ht]
    rw [List.append_assoc]
  · rintro ⟨pre, post, rfl⟩
    rw [isSubL, List.any_eq_true]
    refine ⟨pre.length, ?_, ?_⟩
    · rw [List.mem_range]
      simp only [List.length_append]
      omega
    · rw [List.isPrefixOf_iff_prefix, List.append_assoc, List.drop_left]
      exact ⟨post, rfl⟩

/-!
## Claim C6 — whole-token, synonym-aware skill presence

The claim says an alias *never* matches inside a longer token.  That is
how the code guards aliases of length at most 3 (`(?<![a-z0-9])`,
`(?![a-z0-9])`), but longer aliases are only guarded against adjacent
*letters* (`(?<![a-z])`, `(?![a-z])`), so a longer alias does match when a
digit follows it inside one alphanumeric token: required `rust` is found
in the text `rust2024 expert` although `rust` only occurs inside the token
`rust2024`.  The synonym examples of the claim do hold.
-/

/-- Claim C6, counterexample: `rust` is reported present in
`rust2024 expert`, yet no alias of `rust` occurs as a whole alphanumeric
token there (`OccursWithGuards true` is exactly token-boundary occurrence:
no `[a-z0-9]` on either side). -/

theorem C6_counterexample_rust_digit_token :
    skill_present_in_text "rust" (cl "rust2024 expert") = true
    ∧ get_all_aliases "rust" = ["rust"]
    ∧ ∀ a ∈ get_all_aliases "rust",
        ¬ OccursWithGuards true (cl a) (cl "rust2024 expert") := by
  refine ⟨by decide, by decide, ?_⟩
  intro a ha
  have ha' : a = "rust" := by
    have h2 : get_all_aliases "rust" = ["rust"] := by decide
    rw [h2] at ha
    simpa using ha
  subst ha'
  rw [← searchAlias_iff]
  decide

/-- Claim C6, amended: presence is equivalent to some alias occurring with
the code's boundary guards — both-side `[a-z0-9]` exclusion for aliases of
length at most 3, both-side `[a-z]` exclusion (digits allowed) for longer
aliases; the claim's synonym examples hold as stated. -/

theorem C6_amended_guarded_alias_presence :
    (∀ (skill : String) (tn : List Char),
      skill_present_in_text skill tn = true ↔
        ∃ a ∈ get_all_aliases skill,
          OccursWithGuards (decide ((cl a).length ≤ 3)) (cl a) tn)
    ∧ skill_present_in_text "node.js" (cl "backend with nodejs") = true
    ∧ skill_present_in_text "postgresql" (cl "worked with postgres") = true
    ∧ skill_present_in_text "go" (cl "good communication") = false := by
  refine ⟨?_, by decide, by decide, by decide⟩
  intro skill tn
  rw [skill_present_in_text, List.any_eq_true]
  constructor
  · rintro ⟨a, ha, hs⟩
    exact ⟨a, ha, (searchAlias_iff _ _ _).1 hs⟩
  · rintro ⟨a, ha, ho⟩
    exact ⟨a, ha, (searchAlias_iff _ _ _).2 ho⟩

theorem find?_congr_pred {α : Type} (f g : α → Bool) (l : List α)
    (h : ∀ a, f a = g a) : l.find? f = l.find? g := by
  induction l with
  | nil => rfl
  | cons x xs ih =>
    rw [List.find?_cons, List.find?_cons, h x, ih]

theorem any_eq_filter_pos {α : Type} (l : List α) (f : α → Bool) :
    l.any f = decide (0 < (l.filter f).length) := by
  induction l with
  | nil => rfl
  | cons x xs ih =>
    cases hfx : f x <;>
      simp [List.any_cons, List.filter_cons, hfx, ih]

/-- Claim C5, counterexample: on the job title
`api docker kubernetes terraform` the devops role has the unique maximum
hit count (3; every other role has at most 1), so the claim requires
`"devops"`, but `detect_role_type` returns the first role with any hit —
`"backend"`. -/

theorem C5_counterexample_first_hit_wins :
    detect_role_type (cl "api docker kubernetes terraform") [] [] = "backend"
    ∧ (∀ p ∈ ROLE_KEYWORDS,
        if p.1 = "devops"
        then roleHits p.2 (roleText (cl "api docker kubernetes terraform") [] []) = 3
        else roleHits p.2 (roleText (cl "api docker kubernetes terraform") [] []) ≤ 1) := by
  constructor
  · decide
  · decide

/-- Claim C5, amended: `detect_role_type` returns the *first* role in the
fixed order backend, frontend, fullstack, devops, data, ml whose
signal-keyword set has at least one substring hit in the combined
lower-cased title/keyword/skill text (ties and hit counts beyond the first
hit are never consulted), and `"backend"` when no role has a hit. -/

theorem C5_amended_first_role_with_hit :
    (∀ (title : List Char) (keywords skills : List (List Char)),
      detect_role_type title keywords skills
        = detectRoleFirstHit title keywords skills)
    ∧ (∀ (title : List Char) (keywords skills : List (List Char)),
        (∀ p ∈ ROLE_KEYWORDS, roleHits p.2 (roleText title keywords skills) = 0) →
        detect_role_type title keywords skills = "backend") := by
  have hmain : ∀ (title : List Char) (keywords skills : List (List Char)),
      detect_role_type title keywords skills
        = detectRoleFirstHit title keywords skills := by
    intro title keywords skills
    rw [detect_role_type, detectRoleFirstHit]
    have h := find?_congr_pred
      (fun p => p.2.any (fun s => isSubL (cl s) (roleText title keywords skills)))
      (fun p => decide (0 < roleHits p.2 (roleText title keywords skills)))
      ROLE_KEYWORDS
      (fun p => by simp only [roleHits, any_eq_filter_pos])
    rw [h]
  refine ⟨hmain, ?_⟩
  intro title keywords skills hzero
  rw [hmain, detectRoleFirstHit]
  have hnone : ROLE_KEYWORDS.find? (fun p =>
      0 < roleHits p.2 (roleText title keywords skills)) = none := by
    rw [List.find?_eq_none]
    intro p hp
    rw [hzero p hp]
    simp
  rw [hnone]

/-- Witness for C5 (amended): a title with no role-signal hits detects as
`"backend"`. -/

theorem C5_amended_first_role_with_hit_witness :
    detect_role_type (cl "zzz") [] [] = "backend" :=
  C5_amended_first_role_with_hit.2 (cl "zzz") [] [] (by decide)

/-!
## Claim C4 — Phase 11 aggregation

The spec says the base score is the *round* of the weighted sum; the code
computes `int(...)`, which truncates.  At skill = exp = proj = role = 0,
edu = 13 the weighted sum is 0.65: rounding gives 1, the code gives 0.
The amended statement (floor/truncation) holds for all non-negative
component combinations.
-/

/-- Claim C4, counterexample: the code truncates the weighted sum where
the claim's `round` would round 0.65 up to 1. -/

theorem C4_counterexample_truncates_not_rounds :
    scoreResumeBase 0 0 0 0 13 = 0
    ∧ specBaseRound 0 0 0 0 13 = 1
    ∧ (0 : ℤ) ≠ 1 := by
  refine ⟨?_, ?_, by decide⟩
  · rw [scoreResumeBase]
    norm_num [pyInt, ratFloor_eq_floor]
  · rw [specBaseRound]
    norm_num [halfEven, ratFloor_eq_floor]

/-- Claim C4, amended: for all non-negative component scores the base
score of `score_resume` is `⌊0.30·skill + 0.30·exp + 0.25·proj + 0.10·role
+ 0.05·edu⌋` (truncation of the non-negative weighted sum, not rounding),
clamped to `[0, 100]`. -/

theorem C4_amended_base_score_floor (s e p r d : ℤ)
    (hs : 0 ≤ s) (he : 0 ≤ e) (hp : 0 ≤ p) (hr : 0 ≤ r) (hd : 0 ≤ d) :
    scoreResumeBase s e p r d
      = max 0 (min 100 ⌊((30 * s + 30 * e + 25 * p + 10 * r + 5 * d : ℤ) : ℚ) / 100⌋) := by
  have hs' : (0 : ℚ) ≤ (s : ℚ) := by exact_mod_cast hs
  have he' : (0 : ℚ) ≤ (e : ℚ) := by exact_mod_cast he
  have hp' : (0 : ℚ) ≤ (p : ℚ) := by exact_mod_cast hp
  have hr' : (0 : ℚ) ≤ (r : ℚ) := by exact_mod_cast hr
  have hd' : (0 : ℚ) ≤ (d : ℚ) := by exact_mod_cast hd
  rw [scoreResumeBase, pyInt_eq_floor _ (by linarith)]
  congr 2
  apply congrArg
  push_cast
  ring

/-- Witness for C4 (amended): a concrete component combination. -/

theorem C4_amended_base_score_floor_witness :
    scoreResumeBase 70 50 30 20 75 = 49 := by
  rw [C4_amended_base_score_floor 70 50 30 20 75 (by decide) (by decide)
    (by decide) (by decide) (by decide)]
  norm_num

/-!
## Claim C10 — empty pool

`calibrate_scores` on the empty list returns the empty list (first branch
of the function); the Lean model is a total function, so no exception can
occur on this path.
-/

/-- Claim C10: calibrating an empty pool returns the empty pool. -/

theorem C10_calibrate_empty_pool : calibrate_scores [] = [] := rfl

/-!
## Calibrator lemmas (claims C2, C9, C10)
-/

theorem compressedScore_bounds (n idx : ℕ) (s : ℤ) :
    20 ≤ compressedScore n idx s ∧ compressedScore n idx s ≤ 95 := by
  rw [compressedScore]
  constructor
  · exact le_max_left _ _
  · exact max_le (by norm_num) (min_le_left _ _)

theorem setScores_mem_score {rs : List CandidateResult} {ss : List ℤ}
    {r : CandidateResult} (h : r ∈ setScores rs ss) : r.score ∈ ss := by
  induction rs generalizing ss with
  | nil => rw [setScores.eq_def] at h; cases ss <;> simp at h
  | cons x xs ih =>
    cases ss with
    | nil => simp [setScores] at h
    | cons s ss' =>
      rw [setScores] at h
      rcases List.mem_cons.1 h with h1 | h2
      · rw [h1]; exact List.mem_cons_self _ _
      · exact List.mem_cons_of_mem _ (ih h2)

theorem swapGo_score_pred (P : ℤ → Prop) :
    ∀ (l : List CandidateResult) (a : CandidateResult),
      P a.score → (∀ x ∈ l, P x.score) →
      ∀ y ∈ swapGo a l, P y.score := by
  intro l
  induction l with
  | nil =>
    intro a ha _ y hy
    rw [swapGo] at hy
    simp at hy
    rw [hy]; exact ha
  | cons b rest ih =>
    intro a ha hl y hy
    rw [swapGo] at hy
    split at hy
    · rcases List.mem_cons.1 hy with h1 | h2
      · rw [h1]; exact hl b (List.mem_cons_self _ _)
      · exact ih { b with score := a.score } ha
          (fun x hx => hl x (List.mem_cons_of_mem _ hx)) y h2
    · rcases List.mem_cons.1 hy with h1 | h2
      · rw [h1]; exact ha
      · exact ih _ (hl b (List.mem_cons_self _ _))
          (fun x hx => hl x (List.mem_cons_of_mem _ hx)) y h2

theorem swapPass_score_pred (P : ℤ → Prop) (l : List CandidateResult)
    (hl : ∀ x ∈ l, P x.score) : ∀ y ∈ swapPass l, P y.score := by
  cases l with
  | nil => intro y hy; simp [swapPass] at hy
  | cons a rest =>
    rw [swapPass]
    exact swapGo_score_pred P rest a (hl a (List.mem_cons_self _ _))
      (fun x hx => hl x (List.mem_cons_of_mem _ hx))

theorem insertDesc_perm (r : CandidateResult) (l : List CandidateResult) :
    (insertDesc r l).Perm (r :: l) := by
  induction l with
  | nil => rw [insertDesc]
  | cons x xs ih =>
    rw [insertDesc]
    split
    · exact List.Perm.refl _
    · exact (List.Perm.cons x ih).trans (List.Perm.swap _ _ _)

theorem sortByScoreDesc_perm (l : List CandidateResult) :
    (sortByScoreDesc l).Perm l := by
  induction l with
  | nil => exact List.Perm.refl _
  | cons x xs ih =>
    rw [sortByScoreDesc, List.foldr_cons]
    exact (insertDesc_perm x _).trans (List.Perm.cons x ih)

theorem enumFrom_map_snd {α β : Type} (g : α → β) :
    ∀ (k : ℕ) (l : List α), (List.enumFrom k l).map (fun p => g p.2) = l.map g
  | _, [] => rfl
  | k, x :: xs => by
    rw [List.enumFrom, List.map_cons, List.map_cons, enumFrom_map_snd g (k + 1) xs]

theorem relabelPool_map_score (n : ℕ) (l : List CandidateResult) :
    (relabelPool n l).map (fun r => r.score) = l.map (fun r => r.score) := by
  rw [relabelPool, List.map_map, List.enum]
  have hfun : ((fun (r : CandidateResult) => r.score)
      ∘ fun (p : ℕ × CandidateResult) => relabelOne n p.1 p.2)
      = fun (p : ℕ × CandidateResult) => p.2.score := funext (fun p => rfl)
  rw [hfun]
  exact enumFrom_map_snd (fun r => r.score) 0 l

/-- Every score `calibrateMulti` outputs is clamped into `[20, 95]`. -/

theorem calibrateMulti_score_bounds (rs : List CandidateResult) :
    ∀ r ∈ calibrateMulti rs, 20 ≤ r.score ∧ r.score ≤ 95 := by
  intro r hr
  rw [calibrateMulti] at hr
  have hscore : r.score ∈ (relabelPool rs.length
      (sortByScoreDesc (swapPass (setScores rs
        ((rs.map (fun x => calibratedScore
            (match rs.map (fun x => x.raw_score) with
              | [] => 0
              | x :: xs => listMinZ x xs)
            (max ((match rs.map (fun x => x.raw_score) with
              | [] => 0
              | x :: xs => listMaxZ x xs)
              - (match rs.map (fun x => x.raw_score) with
              | [] => 0
              | x :: xs => listMinZ x xs)) 1)
            (max 90 (min 95 ((match rs.map (fun x => x.raw_score) with
              | [] => 0
              | x :: xs => listMaxZ x xs) + 8)))
            (max 25 ((match rs.map (fun x => x.raw_score) with
              | [] => 0
              | x :: xs => listMinZ x xs) - 2))
            x.raw_score)).enum.map
          (fun p => compressedScore rs.length p.1 p.2)))))).map (fun r => r.score) :=
    List.mem_map_of_mem _ hr
  rw [relabelPool_map_score] at hscore
  obtain ⟨y, hy, hyeq⟩ := List.mem_map.1 hscore
  rw [← hyeq]
  have hy' := (sortByScoreDesc_perm _).mem_iff.1 hy
  refine swapPass_score_pred (fun z => 20 ≤ z ∧ z ≤ 95) _ ?_ y hy'
  intro x hx
  have hxs := setScores_mem_score hx
  obtain ⟨p, _, hp⟩ := List.mem_map.1 hxs
  rw [← hp]
  exact compressedScore_bounds _ _ _

/-- Claim C2, counterexample: a single-candidate pool with score 100 is
returned unchanged (as the claim itself requires), so its output score —
also the top score — is 100, outside `[20, 95]`. -/

theorem C2_counterexample_solo_out_of_band :
    (calibrate_scores [c2solo]).map (fun r => r.score) = [100]
    ∧ ¬ ((100 : ℤ) ≤ 95) := by
  exact ⟨rfl, by decide⟩

/-- Claim C2, amended: for every pool of at least two candidates every
calibrated score lies in `[20, 95]` (hence the top score never exceeds
95), and a single-candidate pool keeps its score unchanged and is labelled
`"Only Candidate"` (no `[20, 95]` guarantee applies to it). -/

theorem C2_amended_bounds_and_solo :
    (∀ rs : List CandidateResult, 2 ≤ rs.length →
      ∀ r ∈ calibrate_scores rs, 20 ≤ r.score ∧ r.score ≤ 95)
    ∧ (∀ c : CandidateResult,
        (calibrate_scores [c]).map (fun r => r.score) = [c.score]
        ∧ (calibrate_scores [c]).map (fun r => r.comparative_rank)
            = [some "Only Candidate"]) := by
  constructor
  · intro rs h2 r hr
    match rs with
    | a :: b :: t =>
      have heq : calibrate_scores (a :: b :: t)
          = calibrateMulti ((a :: b :: t).map snapshotRaw) := rfl
      rw [heq] at hr
      exact calibrateMulti_score_bounds _ r hr
  · intro c
    exact ⟨rfl, rfl⟩

/-- Witness for C2 (amended): the bound instantiated on a concrete
two-candidate pool and the solo clause on a concrete candidate. -/

theorem C2_amended_bounds_and_solo_witness :
    (∀ r ∈ calibrate_scores [c2solo, c2lo], 20 ≤ r.score ∧ r.score ≤ 95)
    ∧ (calibrate_scores [c2solo]).map (fun r => r.score) = [c2solo.score] := by
  constructor
  · exact C2_amended_bounds_and_solo.1 [c2solo, c2lo] (by decide)
  · exact (C2_amended_bounds_and_solo.2 c2solo).1

/-- Claim C9, counterexample: an entry entering with `raw_score = 40` and
`score = 50` leaves with `raw_score = 50` — `raw_score` is overwritten by
the snapshot step, not preserved. -/

theorem C9_counterexample_raw_score_overwritten :
    (calibrate_scores [c9pre]).map (fun r => r.raw_score) = [50]
    ∧ [c9pre].map (fun r => r.raw_score) = [40]
    ∧ (50 : ℤ) ≠ 40 := by
  exact ⟨rfl, rfl, by decide⟩

theorem swapGo_map_frame :
    ∀ (l : List CandidateResult) (a : CandidateResult),
      (swapGo a l).map frameOut = (a :: l).map frameOut := by
  intro l
  induction l with
  | nil => intro a; rfl
  | cons b rest ih =>
    intro a
    rw [swapGo]
    split
    · rw [List.map_cons, ih { b with score := a.score }]
      rfl
    · rw [List.map_cons, ih b]
      rfl

theorem swapPass_map_frame (l : List CandidateResult) :
    (swapPass l).map frameOut = l.map frameOut := by
  cases l with
  | nil => rfl
  | cons a rest => rw [swapPass, swapGo_map_frame]

theorem setScores_map_frame :
    ∀ (rs : List CandidateResult) (ss : List ℤ), rs.length = ss.length →
      (setScores rs ss).map frameOut = rs.map frameOut := by
  intro rs
  induction rs with
  | nil => intro ss _; rw [setScores.eq_def]
  | cons x xs ih =>
    intro ss hlen
    cases ss with
    | nil => simp at hlen
    | cons s ss' =>
      rw [setScores, List.map_cons, List.map_cons, ih ss' (by simpa using hlen)]
      rfl

theorem relabelPool_map_frame (n : ℕ) (l : List CandidateResult) :
    (relabelPool n l).map frameOut = l.map frameOut := by
  rw [relabelPool, List.map_map, List.enum]
  have hfun : (frameOut ∘ fun (p : ℕ × CandidateResult) => relabelOne n p.1 p.2)
      = fun (p : ℕ × CandidateResult) => frameOut p.2 := funext (fun p => rfl)
  rw [hfun]
  exact enumFrom_map_snd frameOut 0 l

/-- Claim C9, amended: across any call to `calibrate_scores`, the
multiset of (identity, breakdown, output `raw_score`) tuples equals the
multiset of input (identity, breakdown, `score`) tuples: the calibrator
overwrites `raw_score` with the entry's `score` at call time (hence
preserves it exactly when they agree, as in the ranking pipeline), and
never alters `resume_id`, `filename`, `skill_match` or
`experience_years`; beyond these it rewrites only `score`, the rank
labels, and the insights recommendation fields. -/

theorem calibrateMulti_frame_perm (rs : List CandidateResult) :
    ((calibrateMulti rs).map frameOut).Perm (rs.map frameOut) := by
  rw [calibrateMulti, relabelPool_map_frame]
  refine (List.Perm.map frameOut (sortByScoreDesc_perm _)).trans ?_
  rw [swapPass_map_frame, setScores_map_frame]
  simp

theorem C9_amended_frame_permutation :
    ∀ rs : List CandidateResult,
      ((calibrate_scores rs).map frameOut).Perm (rs.map frameIn) := by
  intro rs
  match rs with
  | [] => exact List.Perm.refl _
  | [r0] => exact List.Perm.refl _
  | a :: b :: t =>
    have heq : calibrate_scores (a :: b :: t)
        = calibrateMulti ((a :: b :: t).map snapshotRaw) := rfl
    rw [heq]
    refine (calibrateMulti_frame_perm _).trans ?_
    rw [List.map_map]
    have hcomp : (frameOut ∘ snapshotRaw) = frameIn := funext (fun r => rfl)
    rw [hcomp]

/-!
## Claim C7 — family-equivalence classification and partial credit
-/

theorem msFold_mem_of_classified (tn : List Char) (det imp : List String)
    (skill entry ty : String)
    (hc : classifyRequired tn det imp skill = some (entry, ty)) :
    ∀ required : List String, skill ∈ required →
      entry ∈ (msFold tn det imp required).1
      ∧ (pyLowerS skill, ty) ∈ (msFold tn det imp required).2.2 := by
  intro required
  induction required with
  | nil => intro h; simp at h
  | cons s rest ih =>
    intro hmem
    rw [msFold, List.foldr_cons]
    rcases List.mem_cons.1 hmem with h1 | h2
    · subst h1
      rw [msStep, hc]
      exact ⟨List.mem_cons_self _ _, List.mem_cons_self _ _⟩
    · have ihr := ih h2
      rw [msFold] at ihr
      rw [msStep]
      cases hcs : classifyRequired tn det imp s with
      | some p =>
        exact ⟨List.mem_cons_of_mem _ ihr.1, List.mem_cons_of_mem _ ihr.2⟩
      | none =>
        exact ihr

theorem msFold_not_missing (tn : List Char) (det imp : List String)
    (skill : String) (hc : (classifyRequired tn det imp skill).isSome) :
    ∀ required : List String, skill ∉ (msFold tn det imp required).2.1 := by
  intro required
  induction required with
  | nil => simp [msFold]
  | cons s rest ih =>
    rw [msFold, List.foldr_cons, msStep]
    cases hcs : classifyRequired tn det imp s with
    | some p =>
      rw [msFold] at ih
      exact ih
    | none =>
      intro hmem
      rcases List.mem_cons.1 hmem with h1 | h2
      · rw [h1, hcs] at hc
        simp at hc
      · rw [msFold] at ih
        exact ih h2

theorem tierWeight_pos (t : String) : 0 < tierWeight t := by
  rw [tierWeight]
  split_ifs <;> norm_num

theorem lookup_to_mem {α β : Type} [BEq α] (l : List (α × β)) (k : α) (v : β)
    (h : List.lookup k l = some v) : ∃ p ∈ l, p.2 = v := by
  induction l with
  | nil => simp [List.lookup] at h
  | cons x xs ih =>
    rw [List.lookup] at h
    cases hk : (k == x.1) with
    | true => rw [hk] at h; exact ⟨x, List.mem_cons_self _ _, by simpa using h⟩
    | false =>
      rw [hk] at h
      obtain ⟨p, hp, hpv⟩ := ih h
      exact ⟨p, List.mem_cons_of_mem _ hp, hpv⟩

/-- No ecosystem chain ever *implies* kafka, so kafka can never be an
inferred skill, whatever was detected. -/

theorem kafka_never_inferred (det : List String) :
    "kafka" ∉ inferredSkills det := by
  intro h
  rw [inferredSkills] at h
  obtain ⟨s, _, hmem⟩ := List.mem_flatMap.1 h
  cases hlook : ECOSYSTEM_CHAINS.lookup s with
  | none => rw [hlook] at hmem; simp at hmem
  | some l =>
    rw [hlook] at hmem
    obtain ⟨p, hp, hpv⟩ := lookup_to_mem ECOSYSTEM_CHAINS s l hlook
    have hall : ∀ q ∈ ECOSYSTEM_CHAINS, "kafka" ∉ q.2.map normalize_skill := by
      decide
    exact hall p hp (by rw [hpv]; exact hmem)

/-- Claim C7: a required skill that is neither directly present nor
inferred, but whose technology family has another member present, is
classified `family` (entry suffixed `" (equivalent)"`, recorded under its
lower-cased name, never listed missing), and `compute_skill_match_score`
credits such a match `0.50` of its tier weight, strictly less than the
full tier weight a direct match earns.  (`hkeyF`/`hkeyD` record that the
skill name itself contains no `" ("`, so the score key is its lower-cased
name.) -/

theorem C7_family_equivalent_partial_credit
    (text : List Char) (required : List String) (skill : String)
    (imp : List (String × String))
    (hreq : skill ∈ required)
    (hnp : skill_present_in_text skill (normalize_text text) = false)
    (hni : normalize_skill skill ∉ inferredSkills (detectedCanonicals (normalize_text text)))
    (hnd : normalize_skill skill ∉ detectedCanonicals (normalize_text text))
    (hfam : family_member_present skill (normalize_text text) = true)
    (hkeyF : skillKey (skill ++ " (equivalent)") = pyLowerS skill)
    (hkeyD : skillKey skill = pyLowerS skill) :
    ((skill ++ " (equivalent)") ∈ (match_skills text required).1
      ∧ skill ∉ (match_skills text required).2.1
      ∧ (pyLowerS skill, "family") ∈ (match_skills text required).2.2)
    ∧ (matchedWeights [skill ++ " (equivalent)"] [(pyLowerS skill, "family")] imp).2
        = tierWeight (lookupTier imp (pyLowerS skill)) * mkRat 1 2
    ∧ (matchedWeights [skill] [(pyLowerS skill, "direct")] imp).2
        = tierWeight (lookupTier imp (pyLowerS skill)) * 1
    ∧ tierWeight (lookupTier imp (pyLowerS skill)) * mkRat 1 2
        < tierWeight (lookupTier imp (pyLowerS skill)) * 1 := by
  have hc : classifyRequired (normalize_text text)
      (detectedCanonicals (normalize_text text))
      (inferredSkills (detectedCanonicals (normalize_text text))) skill
      = some (skill ++ " (equivalent)", "family") := by
    rw [classifyRequired, hnp]
    simp only [Bool.false_eq_true, if_false]
    rw [if_neg (by push_neg; exact ⟨hni, hnd⟩), if_pos hfam]
  refine ⟨⟨?_, ?_, ?_⟩, ?_, ?_, ?_⟩
  · exact (msFold_mem_of_classified _ _ _ _ _ _ hc required hreq).1
  · exact msFold_not_missing _ _ _ skill (by rw [hc]; rfl) required
  · exact (msFold_mem_of_classified _ _ _ _ _ _ hc required hreq).2
  · rw [matchedWeights, List.foldl_cons, List.foldl_nil, hkeyF]
    simp [lookupType, List.lookup, matchCredit]
  · rw [matchedWeights, List.foldl_cons, List.foldl_nil, hkeyD]
    simp [lookupType, List.lookup, matchCredit]
  · have hw := tierWeight_pos (lookupTier imp (pyLowerS skill))
    rw [Rat.mkRat_eq_div]
    nlinarith [hw]

/-- Witness for C7: required `kafka` against a résumé that only mentions
`rabbitmq`. -/

theorem C7_family_equivalent_partial_credit_witness :
    ("kafka" ++ " (equivalent)") ∈ (match_skills (cl "worked with rabbitmq") ["kafka"]).1
    ∧ "kafka" ∉ (match_skills (cl "worked with rabbitmq") ["kafka"]).2.1
    ∧ (pyLowerS "kafka", "family") ∈ (match_skills (cl "worked with rabbitmq") ["kafka"]).2.2
    ∧ (matchedWeights ["kafka" ++ " (equivalent)"] [(pyLowerS "kafka", "family")]
        [("kafka", "critical")]).2
      = tierWeight (lookupTier [("kafka", "critical")] (pyLowerS "kafka")) * mkRat 1 2 := by
  have hnorm : normalize_skill "kafka" = "kafka" := by decide
  have hnp : skill_present_in_text "kafka"
      (normalize_text (cl "worked with rabbitmq")) = false := by decide
  have h := C7_family_equivalent_partial_credit (cl "worked with rabbitmq")
    ["kafka"] "kafka" [("kafka", "critical")]
    (by decide)
    hnp
    (by rw [hnorm]; exact kafka_never_inferred _)
    (by
      rw [hnorm]
      intro hmem
      have h2 := (List.mem_filter.1 hmem).2
      rw [hnp] at h2
      simp at h2)
    (by decide)
    (by decide)
    (by decide)
  exact ⟨h.1.1, h.1.2.1, h.1.2.2, h.2.1⟩

/-!
## Claim C3 — interval span formula

When at least one valid interval exists the code returns
`min(max(round((latest - earliest)/12, 1), 0), 45)` where `earliest` /
`latest` range over *all* valid intervals — the span of the union, not the
sum of the individual interval lengths.
-/

/-- Claim C3: with at least one valid interval, the result is the span
from the earliest start month to the latest end month, divided by 12,
rounded to one decimal and clamped to `[0, 45]`. -/

theorem C3_interval_span_formula (nowY nowM : ℕ) (text : List Char)
    (p : ℕ × ℕ) (ps : List (ℕ × ℕ))
    (h : periodsOf nowY nowM (normalize_text text) = p :: ps) :
    extract_years_of_experience nowY nowM text
      = qmin (qmax (pyRound1
          ((((ps.foldl (fun a q => Nat.max a q.2) p.2 : ℕ) : ℚ)
              - ((ps.foldl (fun a q => Nat.min a q.1) p.1 : ℕ) : ℚ)) / 12)) 0)
          MAX_EXP_YEARS := by
  rw [extract_years_of_experience]
  simp only [h]

unseal Rat.add Rat.mul Rat.sub Rat.inv in

/-- Witness for C3: two non-overlapping ranges, Jan 2015–Jan 2016 and
Jan 2018–Jan 2020; the result is the span 2015→2020 (5.0 years), not the
sum of the two lengths (1 + 2 = 3). -/

theorem C3_interval_span_formula_witness :
    periodsOf 2026 10 (normalize_text (cl "jan 2015 - jan 2016 and jan 2018 - jan 2020"))
      = [(24181, 24193), (24217, 24241)]
    ∧ extract_years_of_experience 2026 10
        (cl "jan 2015 - jan 2016 and jan 2018 - jan 2020") = 5
    ∧ (5 : ℚ) ≠ 1 + 2 := by
  have hper : periodsOf 2026 10
      (normalize_text (cl "jan 2015 - jan 2016 and jan 2018 - jan 2020"))
      = [(24181, 24193), (24217, 24241)] := by decide
  refine ⟨hper, ?_, by decide⟩
  rw [C3_interval_span_formula 2026 10 _ (24181, 24193) [(24217, 24241)] hper]
  decide

/-!
## Claim C8 — explicit-statement fallback

The fallback does return the maximum stated figure — but only when that
maximum lies in `(0, 45]`; `if 0 < val <= MAX_EXP_YEARS` sends any larger
(or non-positive) figure to `0.0`, and the returned value is additionally
`round(·, 1)`-ed.  `"50 years of experience"` therefore yields `0.0`, not
`50.0`, refuting the claim as stated.
-/

unseal Rat.add Rat.mul Rat.sub Rat.inv in

/-- Claim C8, counterexample: no date range is present and the only
explicit statement says 50 years, yet the function returns 0.0 (50 is
above `MAX_EXP_YEARS = 45`), not the stated maximum. -/

theorem C8_counterexample_value_above_cap :
    periodsOf 2026 10 (normalize_text (cl "i have 50 years of experience")) = []
    ∧ expValsOf (normalize_text (cl "i have 50 years of experience")) = [50]
    ∧ extract_years_of_experience 2026 10 (cl "i have 50 years of experience") = 0
    ∧ (0 : ℚ) ≠ 50 := by
  decide

/-- Claim C8, amended: when no valid interval exists the function matches
explicit `<number>(+)? years (of)? (adjective)? experience` statements and
returns the maximum matched number rounded to one decimal — provided that
maximum lies in `(0, 45]`; otherwise (no statement, or a maximum outside
the range) it returns 0.0. -/

theorem C8_fallback_max_in_range (nowY nowM : ℕ) (text : List Char)
    (hper : periodsOf nowY nowM (normalize_text text) = []) :
    extract_years_of_experience nowY nowM text
      = (match expValsOf (normalize_text text) with
         | v :: vs =>
           if 0 < vs.foldl qmax v ∧ vs.foldl qmax v ≤ MAX_EXP_YEARS
           then pyRound1 (vs.foldl qmax v) else 0
         | [] => 0) := by
  rw [extract_years_of_experience]
  simp only [hper]

unseal Rat.add Rat.mul Rat.sub Rat.inv in

/-- Witness for C8 (amended): `5+ years of professional experience` with
no date ranges yields exactly 5.0. -/

theorem C8_fallback_max_in_range_witness :
    extract_years_of_experience 2026 10
      (cl "5+ years of professional experience") = 5 := by
  have hper : periodsOf 2026 10
      (normalize_text (cl "5+ years of professional experience")) = [] := by decide
  rw [C8_fallback_max_in_range 2026 10 _ hper]
  decide

theorem digitCount_suffix_le {s cs : List Char} (h : s <:+ cs) :
    digitCount s ≤ digitCount cs :=
  (h.sublist.filter Char.isDigit).length_le

theorem isSubL_of_suffix {s cs kw : List Char} (h : s <:+ cs)
    (hk : isSubL kw s = true) : isSubL kw cs = true := by
  obtain ⟨pre, post, hsplit⟩ := (isSubL_iff kw s).1 hk
  obtain ⟨u, hu⟩ := h
  rw [isSubL_iff]
  exact ⟨u ++ pre, post, by rw [← hu, hsplit, List.append_assoc, List.append_assoc,
    List.append_assoc]⟩

theorem KeywordHit_of_suffix {s cs : List Char} (h : s <:+ cs)
    (hk : KeywordHit s) : KeywordHit cs := by
  obtain ⟨kw, hkw, hsub⟩ := hk
  exact ⟨kw, hkw, isSubL_of_suffix h hsub⟩

theorem isSubL_of_isPrefixOf {pat cs : List Char}
    (h : pat.isPrefixOf cs = true) : isSubL pat cs = true := by
  rw [List.isPrefixOf_iff_prefix] at h
  obtain ⟨t, ht⟩ := h
  rw [isSubL_iff]
  exact ⟨[], t, by rw [← ht]; rfl⟩

theorem skipSpaces_suffix (cs : List Char) : skipSpaces cs <:+ cs :=
  List.dropWhile_suffix _

theorem dotSpaces_suffix (cs : List Char) : dotSpaces cs <:+ cs := by
  rw [dotSpaces.eq_def]
  split
  · exact (skipSpaces_suffix _).trans (List.suffix_cons _ _)
  · exact skipSpaces_suffix _

theorem matchMonthCands_suffix (cs : List Char) :
    ∀ q ∈ matchMonthCands cs, q.2 <:+ cs := by
  intro q hq
  rw [matchMonthCands] at hq
  obtain ⟨alt, _, halt⟩ := List.mem_filterMap.1 hq
  split at halt
  · cases halt
    exact (dotSpaces_suffix _).trans (List.drop_suffix _ _)
  · cases halt

theorem monthPartCands_suffix (cs : List Char) :
    ∀ mp ∈ monthPartCands cs, mp.2 <:+ cs := by
  intro mp hmp
  rw [monthPartCands] at hmp
  rcases List.mem_append.1 hmp with h1 | h2
  · obtain ⟨q, hq, hqe⟩ := List.mem_map.1 h1
    rw [← hqe]
    exact matchMonthCands_suffix cs q hq
  · have : mp = (none, cs) := by simpa using h2
    rw [this]

theorem matchYearTok_digits {cs rest : List Char} {y : ℕ}
    (h : matchYearTok cs = some (y, rest)) :
    digitCount cs = 4 + digitCount rest ∧ rest = cs.drop 4 := by
  rw [matchYearTok.eq_def] at h
  split at h
  · rename_i a b rest'
    split at h
    · rename_i hab
      rw [Bool.and_eq_true] at hab
      cases h
      constructor
      · simp [digitCount, List.filter_cons, hab.1, hab.2,
          show Char.isDigit '2' = true from rfl,
          show Char.isDigit '0' = true from rfl]
        omega
      · rfl
    · cases h
  · rename_i a b rest'
    split at h
    · rename_i hab
      rw [Bool.and_eq_true] at hab
      cases h
      constructor
      · simp [digitCount, List.filter_cons, hab.1, hab.2,
          show Char.isDigit '1' = true from rfl,
          show Char.isDigit '9' = true from rfl]
        omega
      · rfl
    · cases h
  · cases h

theorem sepCands_suffix (cs : List Char) :
    ∀ s ∈ sepCands cs, s <:+ cs := by
  intro s hs
  have hd : cs.dropWhile isPySpace <:+ cs := List.dropWhile_suffix _
  rw [sepCands] at hs
  split_ifs at hs with h1 h2 h3 h4
  · rcases List.mem_cons.1 hs with e1 | e2
    · rw [e1]
      exact ((List.dropWhile_suffix _).trans (List.drop_suffix _ _)).trans hd
    · have e1 : s = (cs.dropWhile isPySpace).drop 1 := by simpa using e2
      rw [e1]
      exact (List.drop_suffix _ _).trans hd
  · have e1 : s = ((cs.dropWhile isPySpace).drop 1).dropWhile isPySpace := by
      simpa using hs
    rw [e1]
    exact ((List.dropWhile_suffix _).trans (List.drop_suffix _ _)).trans hd
  · have e1 : s = ((cs.dropWhile isPySpace).drop 2).dropWhile isPySpace := by
      simpa using hs
    rw [e1]
    exact ((List.dropWhile_suffix _).trans (List.drop_suffix _ _)).trans hd
  · have e1 : s = ((cs.dropWhile isPySpace).drop 4).dropWhile isPySpace := by
      simpa using hs
    rw [e1]
    exact ((List.dropWhile_suffix _).trans (List.drop_suffix _ _)).trans hd
  · cases hs

theorem dateAfter_keyword {k : ℕ} {cs : List Char} {x : EndTok × List Char}
    (h : dateAfter k cs = some x) : KeywordHit cs := by
  rw [dateAfter] at h
  split_ifs at h with h1
  · refine ⟨cl "date", by decide, ?_⟩
    exact isSubL_of_suffix ((List.dropWhile_suffix _).trans (List.drop_suffix _ _))
      (isSubL_of_isPrefixOf h1)

theorem matchEndTok_cases {cs : List Char} {x : EndTok × List Char}
    (h : matchEndTok cs = some x) :
    4 ≤ digitCount cs ∨ KeywordHit cs := by
  rw [matchEndTok.eq_def] at h
  cases hy : matchYearTok cs with
  | some p =>
    left
    have hd := (matchYearTok_digits (show matchYearTok cs = some (p.1, p.2) by
      rw [hy])).1
    omega
  | none =>
    rw [hy] at h
    split_ifs at h with h1 h2 h3 h4 h5 h6
    · exact Or.inr ⟨cl "present", by decide, isSubL_of_isPrefixOf h1⟩
    · exact Or.inr ⟨cl "current", by decide, isSubL_of_isPrefixOf h2⟩
    · exact Or.inr ⟨cl "now", by decide, isSubL_of_isPrefixOf h3⟩
    · exact Or.inr ⟨cl "ongoing", by decide, isSubL_of_isPrefixOf h4⟩
    · exact Or.inr (dateAfter_keyword h)
    · exact Or.inr (dateAfter_keyword h)

theorem findSome?_inv {α β : Type} (f : α → Option β) (l : List α) (b : β)
    (h : l.findSome? f = some b) : ∃ a ∈ l, f a = some b := by
  induction l with
  | nil => simp [List.findSome?] at h
  | cons x xs ih =>
    rw [List.findSome?] at h
    cases hx : f x with
    | some v =>
      rw [hx] at h
      simp at h
      exact ⟨x, List.mem_cons_self _ _, by rw [hx, h]⟩
    | none =>
      rw [hx] at h
      obtain ⟨a, ha, hfa⟩ := ih h
      exact ⟨a, List.mem_cons_of_mem _ ha, hfa⟩

theorem endCands_cases {cs : List Char} :
    ∀ ec ∈ endCands cs, 4 ≤ digitCount cs ∨ KeywordHit cs := by
  intro ec hec
  rw [endCands] at hec
  rcases List.mem_append.1 hec with h1 | h2
  · obtain ⟨q, hq, hqe⟩ := List.mem_filterMap.1 h1
    have hqs : q.2 <:+ cs := matchMonthCands_suffix cs q hq
    cases he : matchEndTok q.2 with
    | none => rw [he] at hqe; cases hqe
    | some p =>
      rcases matchEndTok_cases he with hd | hk
      · exact Or.inl (le_trans hd (digitCount_suffix_le hqs))
      · exact Or.inr (KeywordHit_of_suffix hqs hk)
  · cases he : matchEndTok cs with
    | none => rw [he] at h2; cases h2
    | some p => exact matchEndTok_cases he

theorem matchAt_structure {cs : List Char} {r : RawMatch × List Char}
    (h : matchAt cs = some r) : 8 ≤ digitCount cs ∨ KeywordHit cs := by
  rw [matchAt] at h
  obtain ⟨mp, hmp, hinner⟩ := findSome?_inv _ _ _ h
  have hmps : mp.2 <:+ cs := monthPartCands_suffix cs mp hmp
  cases hy : matchYearTok mp.2 with
  | none => rw [hy] at hinner; cases hinner
  | some p =>
    rw [hy] at hinner
    obtain ⟨hdig2, hrest⟩ := matchYearTok_digits
      (show matchYearTok mp.2 = some (p.1, p.2) by rw [hy])
    obtain ⟨cs3, hcs3, hinner2⟩ := findSome?_inv _ _ _ hinner
    have hcs3s : cs3 <:+ p.2 := sepCands_suffix p.2 cs3 hcs3
    obtain ⟨ec, hec, _⟩ := findSome?_inv _ _ _ hinner2
    rcases endCands_cases ec hec with hd | hk
    · left
      have h1 : digitCount cs3 ≤ digitCount p.2 := digitCount_suffix_le hcs3s
      have h3 : digitCount mp.2 ≤ digitCount cs := digitCount_suffix_le hmps
      omega
    · right
      have hp2 : p.2 <:+ mp.2 := by rw [hrest]; exact List.drop_suffix _ _
      exact KeywordHit_of_suffix hmps (KeywordHit_of_suffix hp2
        (KeywordHit_of_suffix hcs3s hk))

theorem dateScan_nil {cs : List Char}
    (H : ∀ s, s <:+ cs → matchAt s = none) :
    ∀ (fuel : ℕ) (s : List Char), s <:+ cs → dateScan fuel s = [] := by
  intro fuel
  induction fuel with
  | zero => intro s _; rfl
  | succ n ih =>
    intro s hsuf
    cases s with
    | nil => rfl
    | cons c rest =>
      rw [dateScan, H (c :: rest) hsuf]
      exact ih rest ((List.suffix_cons _ _).trans hsuf)

theorem matchNumber_suffix {cs r : List Char} {v : ℚ}
    (h : matchNumber cs = some (v, r)) : r <:+ cs := by
  rw [matchNumber.eq_def] at h
  split_ifs at h
  split at h <;> rename_i heq
  · split_ifs at h with h2 <;>
      (rw [Option.some.injEq, Prod.mk.injEq] at h
       obtain ⟨-, h4⟩ := h
       rw [← h4])
    · exact List.drop_suffix _ _
    · exact (List.drop_suffix _ _).trans
        ((List.suffix_cons _ _).trans (heq ▸ List.drop_suffix _ _))
  · rw [Option.some.injEq, Prod.mk.injEq] at h
    obtain ⟨-, h4⟩ := h
    rw [← h4]
    exact List.drop_suffix _ _

theorem plusOpt_suffix (cs : List Char) : plusOpt cs <:+ cs := by
  rw [plusOpt.eq_def]
  split
  · exact List.suffix_cons _ _
  · exact List.suffix_rfl

theorem sOpt_suffix (cs : List Char) : sOpt cs <:+ cs := by
  rw [sOpt.eq_def]
  split
  · exact List.suffix_cons _ _
  · exact List.suffix_rfl

theorem spacePlus_suffix {cs r : List Char} (h : spacePlus cs = some r) :
    r <:+ cs := by
  rw [spacePlus.eq_def] at h
  split at h
  · split_ifs at h
    rw [Option.some.injEq] at h
    rw [← h]
    exact (List.dropWhile_suffix _).trans (List.suffix_cons _ _)
  · cases h

theorem wordSpacePlus_suffix {w : String} {cs r : List Char}
    (h : wordSpacePlus w cs = some r) : r <:+ cs := by
  rw [wordSpacePlus] at h
  split_ifs at h
  split at h <;> rename_i heq
  · split_ifs at h
    rw [Option.some.injEq] at h
    rw [← h]
    exact (List.dropWhile_suffix _).trans
      ((List.suffix_cons _ _).trans (heq ▸ List.drop_suffix _ _))
  · cases h

theorem ofGroup_suffix (cs : List Char) : ofGroup cs <:+ cs := by
  cases hw : wordSpacePlus "of" cs with
  | some r =>
    rw [ofGroup, hw]
    exact wordSpacePlus_suffix hw
  | none =>
    rw [ofGroup, hw]

theorem adjGroup_suffix (cs : List Char) : adjGroup cs <:+ cs := by
  cases hw : (["relevant", "professional", "industry", "work",
      "total"].findSome? (fun w => wordSpacePlus w cs)) with
  | some r =>
    rw [adjGroup, hw]
    obtain ⟨w, _, hws⟩ := findSome?_inv _ _ _ hw
    exact wordSpacePlus_suffix hws
  | none =>
    rw [adjGroup, hw]

theorem matchExpAt_experience_occurs {cs : List Char} {p : ℚ × List Char}
    (h : matchExpAt cs = some p) : isSubL (cl "experience") cs = true := by
  rw [matchExpAt.eq_def] at h
  cases hn : matchNumber cs with
  | none => rw [hn] at h; cases h
  | some q =>
    obtain ⟨v, cs1⟩ := q
    simp only [hn] at h
    split_ifs at h with hy
    cases hsp : spacePlus (sOpt
        (((plusOpt (cs1.dropWhile isPySpace)).dropWhile isPySpace).drop 4)) with
    | none => rw [hsp] at h; cases h
    | some r7 =>
      simp only [hsp] at h
      split_ifs at h with hexp
      have hchain : adjGroup (ofGroup r7) <:+ cs :=
        (adjGroup_suffix _).trans ((ofGroup_suffix _).trans
          ((spacePlus_suffix hsp).trans ((sOpt_suffix _).trans
            ((List.drop_suffix _ _).trans ((List.dropWhile_suffix _).trans
              ((plusOpt_suffix _).trans ((List.dropWhile_suffix _).trans
                (matchNumber_suffix hn))))))))
      exact isSubL_of_suffix hchain (isSubL_of_isPrefixOf hexp)

theorem expScan_nil {cs : List Char}
    (H : ∀ s, s <:+ cs → matchExpAt s = none) :
    ∀ (fuel : ℕ) (s : List Char), s <:+ cs → expScan fuel s = [] := by
  intro fuel
  induction fuel with
  | zero => intro s _; rfl
  | succ n ih =>
    intro s hsuf
    cases s with
    | nil => rfl
    | cons c rest =>
      rw [expScan, H (c :: rest) hsuf]
      exact ih rest ((List.suffix_cons _ _).trans hsuf)

/-- Claim C1: if the normalised text has fewer than eight digit characters
(in particular, when its only date-like content is one bare 4-digit year),
contains none of the end markers `present`, `current`, `now`, `ongoing`,
`date`, and contains no `experience` statement, then
`extract_years_of_experience` returns 0.0 — a bare year is never read as a
duration. -/

theorem C1_bare_year_contributes_zero (nowY nowM : ℕ) (text : List Char)
    (hdig : digitCount (normalize_text text) < 8)
    (hkw : ∀ kw ∈ dateEndMarkers, isSubL kw (normalize_text text) = false)
    (hexp : isSubL (cl "experience") (normalize_text text) = false) :
    extract_years_of_experience nowY nowM text = 0 := by
  have Hmat : ∀ s, s <:+ normalize_text text → matchAt s = none := by
    intro s hs
    cases hm : matchAt s with
    | none => rfl
    | some r =>
      rcases matchAt_structure hm with hd | hk
      · have hle := digitCount_suffix_le hs
        omega
      · obtain ⟨kw, hkwm, hsub⟩ := KeywordHit_of_suffix hs hk
        rw [hkw kw hkwm] at hsub
        cases hsub
  have Hexp : ∀ s, s <:+ normalize_text text → matchExpAt s = none := by
    intro s hs
    cases hm : matchExpAt s with
    | none => rfl
    | some p =>
      have hsub := isSubL_of_suffix hs (matchExpAt_experience_occurs hm)
      rw [hexp] at hsub
      cases hsub
  have hper : periodsOf nowY nowM (normalize_text text) = [] := by
    rw [periodsOf, dateScan_nil Hmat _ _ List.suffix_rfl]
    rfl
  have hvals : expValsOf (normalize_text text) = [] := by
    rw [expValsOf, expScan_nil Hexp _ _ List.suffix_rfl]
  rw [extract_years_of_experience]
  simp only [hper, hvals]

/-- Witness for C1: a résumé title carrying the bare year 2025. -/

theorem C1_bare_year_contributes_zero_witness :
    digitCount (normalize_text (cl "senior software engineer resume 2025")) < 8
    ∧ extract_years_of_experience 2026 10
        (cl "senior software engineer resume 2025") = 0 := by
  refine ⟨by decide, ?_⟩
  exact C1_bare_year_contributes_zero 2026 10 _ (by decide) (by decide) (by decide)

/-!
## Fuel sufficiency for the two `findall` scanners

Every successful match strictly shortens the text (the date pattern
consumes at least the four start-year digits; the statement pattern
consumes at least through the literal `experience`), so running the scans
with `fuel = cs.length` reproduces unbounded `findall` scanning.
-/

theorem matchYearTok_length {cs rest : List Char} {y : ℕ}
    (h : matchYearTok cs = some (y, rest)) : cs.length = 4 + rest.length := by
  rw [matchYearTok.eq_def] at h
  split at h
  · split at h
    · cases h
      simp [List.length_cons]
      omega
    · cases h
  · split at h
    · cases h
      simp [List.length_cons]
      omega
    · cases h
  · cases h

theorem dateAfter_rest_suffix {k : ℕ} {cs : List Char} {x : EndTok × List Char}
    (h : dateAfter k cs = some x) : x.2 <:+ cs := by
  rw [dateAfter] at h
  split_ifs at h with h1
  rw [Option.some.injEq] at h
  rw [← h]
  exact (List.drop_suffix _ _).trans
    ((List.dropWhile_suffix _).trans (List.drop_suffix _ _))

theorem matchEndTok_rest_suffix {cs : List Char} {x : EndTok × List Char}
    (h : matchEndTok cs = some x) : x.2 <:+ cs := by
  rw [matchEndTok.eq_def] at h
  cases hy : matchYearTok cs with
  | some p =>
    obtain ⟨y, r⟩ := p
    rw [hy] at h
    rw [Option.some.injEq] at h
    rw [← h]
    have hr : r = cs.drop 4 := (matchYearTok_digits hy).2
    rw [hr]
    exact List.drop_suffix _ _
  | none =>
    rw [hy] at h
    split_ifs at h with h1 h2 h3 h4 h5 h6
    · rw [Option.some.injEq] at h; rw [← h]; exact List.drop_suffix _ _
    · rw [Option.some.injEq] at h; rw [← h]; exact List.drop_suffix _ _
    · rw [Option.some.injEq] at h; rw [← h]; exact List.drop_suffix _ _
    · rw [Option.some.injEq] at h; rw [← h]; exact List.drop_suffix _ _
    · exact dateAfter_rest_suffix h
    · exact dateAfter_rest_suffix h

theorem endCands_rest_suffix {cs : List Char} :
    ∀ ec ∈ endCands cs, ec.2.2 <:+ cs := by
  intro ec hec
  rw [endCands] at hec
  rcases List.mem_append.1 hec with h1 | h2
  · obtain ⟨q, hq, hqe⟩ := List.mem_filterMap.1 h1
    have hqs : q.2 <:+ cs := matchMonthCands_suffix cs q hq
    cases he : matchEndTok q.2 with
    | none => rw [he] at hqe; cases hqe
    | some p =>
      obtain ⟨tok, r⟩ := p
      rw [he] at hqe
      rw [Option.some.injEq] at hqe
      rw [← hqe]
      exact (matchEndTok_rest_suffix he).trans hqs
  · cases he : matchEndTok cs with
    | none => rw [he] at h2; cases h2
    | some p =>
      obtain ⟨tok, r⟩ := p
      rw [he] at h2
      have h3 : ec = (none, tok, r) := by simpa using h2
      rw [h3]
      exact matchEndTok_rest_suffix he

/-- A successful date-pattern match strictly shortens the text, so
`fuel = cs.length` suffices for `dateScan`. -/

theorem matchAt_rest_length {cs : List Char} {r : RawMatch × List Char}
    (h : matchAt cs = some r) : r.2.length < cs.length := by
  rw [matchAt] at h
  obtain ⟨mp, hmp, hinner⟩ := findSome?_inv _ _ _ h
  have hmps : mp.2 <:+ cs := monthPartCands_suffix cs mp hmp
  cases hy : matchYearTok mp.2 with
  | none => rw [hy] at hinner; cases hinner
  | some p =>
    rw [hy] at hinner
    have hylen : mp.2.length = 4 + p.2.length :=
      matchYearTok_length (show matchYearTok mp.2 = some (p.1, p.2) by rw [hy])
    obtain ⟨cs3, hcs3, hinner2⟩ := findSome?_inv _ _ _ hinner
    have hcs3s : cs3 <:+ p.2 := sepCands_suffix p.2 cs3 hcs3
    obtain ⟨ec, hec, hsome⟩ := findSome?_inv _ _ _ hinner2
    rw [Option.some.injEq] at hsome
    have hres : r.2 = ec.2.2 := by rw [← hsome]
    have h1 : ec.2.2.length ≤ cs3.length :=
      (endCands_rest_suffix ec hec).sublist.length_le
    have h2 : cs3.length ≤ p.2.length := hcs3s.sublist.length_le
    have h3 : mp.2.length ≤ cs.length := hmps.sublist.length_le
    rw [hres]
    omega

/-- A successful statement-pattern match strictly shortens the text, so
`fuel = cs.length` suffices for `expScan`. -/

theorem matchExpAt_rest_length {cs : List Char} {p : ℚ × List Char}
    (h : matchExpAt cs = some p) : p.2.length < cs.length := by
  rw [matchExpAt.eq_def] at h
  cases hn : matchNumber cs with
  | none => rw [hn] at h; cases h
  | some q =>
    obtain ⟨v, cs1⟩ := q
    simp only [hn] at h
    split_ifs at h with hy
    cases hsp : spacePlus (sOpt
        (((plusOpt (cs1.dropWhile isPySpace)).dropWhile isPySpace).drop 4)) with
    | none => rw [hsp] at h; cases h
    | some r7 =>
      simp only [hsp] at h
      split_ifs at h with hexp
      rw [Option.some.injEq] at h
      have hchain : adjGroup (ofGroup r7) <:+ cs :=
        (adjGroup_suffix _).trans ((ofGroup_suffix _).trans
          ((spacePlus_suffix hsp).trans ((sOpt_suffix _).trans
            ((List.drop_suffix _ _).trans ((List.dropWhile_suffix _).trans
              ((plusOpt_suffix _).trans ((List.dropWhile_suffix _).trans
                (matchNumber_suffix hn))))))))
      have hlen9 : (cl "experience").length ≤ (adjGroup (ofGroup r7)).length :=
        (List.isPrefixOf_iff_prefix.1 hexp).sublist.length_le
      have hten : (cl "experience").length = 10 := rfl
      have hc : (adjGroup (ofGroup r7)).length ≤ cs.length :=
        hchain.sublist.length_le
      have hres : p.2 = (adjGroup (ofGroup r7)).drop 10 := by rw [← h]
      rw [hres, List.length_drop]
      omega
